import Mathlib

/-!
Verification of the YAML body/expression adapter of the ytofu repository.

The Go sources are shallowly embedded: the `yaml.Node` tree, the range
utilities (`range.go`), the expression adapter (`expression.go`, given here
as `unnamed/part_003`), the body adapter (`body.go`), the template
restriction walker (`restrictions.go`) and the multi-document front door
(`parser_yaml.go`).  External collaborators (the YAML decoder, the HCL
template engine `hclsyntax`, and go-cty's number formatting) are modelled
as parameters or abstract inputs, exactly at the interface the source code
uses them.
-/

namespace Ytofu

/-! ## Data model: yaml.Node (gopkg.in/yaml.v3)

`yaml.Node` has fields Kind, Style, Tag, Value, Content, Alias, Line,
Column.  Kind is an enumeration (zero value 0 for an undecoded node);
Style is a bitmask of which the source only ever compares against
`SingleQuotedStyle` and `DoubleQuotedStyle` with `==`, so it is kept as a
numeric constant.  Line and Column are Go `int`s, modelled as `Int`. -/

inductive YamlKind where
  | zeroKind
  | document
  | sequence
  | mapping
  | scalar
  | aliasKind
  deriving DecidableEq, Repr

/-- yaml.TaggedStyle -/
def taggedStyle : Nat := 1
/-- yaml.DoubleQuotedStyle -/
def doubleQuotedStyle : Nat := 2
/-- yaml.SingleQuotedStyle -/
def singleQuotedStyle : Nat := 4
/-- yaml.LiteralStyle -/
def literalStyle : Nat := 8
/-- yaml.FoldedStyle -/
def foldedStyle : Nat := 16
/-- yaml.FlowStyle -/
def flowStyle : Nat := 32

/-- A parsed YAML tree node (yaml.Node).  The `aliasTo` field models the
`Alias` pointer of an alias node; `content` models the `Content` slice. -/
inductive YamlNode where
  | mk (kind : YamlKind) (style : Nat) (tag : String) (value : String)
      (content : List YamlNode) (aliasTo : Option YamlNode)
      (line : Int) (column : Int)

def YamlNode.kind : YamlNode → YamlKind
  | .mk k _ _ _ _ _ _ _ => k

def YamlNode.style : YamlNode → Nat
  | .mk _ s _ _ _ _ _ _ => s

def YamlNode.tag : YamlNode → String
  | .mk _ _ t _ _ _ _ _ => t

def YamlNode.value : YamlNode → String
  | .mk _ _ _ v _ _ _ _ => v

def YamlNode.content : YamlNode → List YamlNode
  | .mk _ _ _ _ c _ _ _ => c

def YamlNode.aliasTo : YamlNode → Option YamlNode
  | .mk _ _ _ _ _ a _ _ => a

def YamlNode.line : YamlNode → Int
  | .mk _ _ _ _ _ _ l _ => l

def YamlNode.column : YamlNode → Int
  | .mk _ _ _ _ _ _ _ c => c

theorem YamlNode.sizeOf_content_lt (n : YamlNode) : sizeOf n.content < sizeOf n := by
  cases n with
  | mk k s t v c a l col => simp [YamlNode.content]; omega

theorem YamlNode.sizeOf_aliasTo_lt (n a : YamlNode) (h : n.aliasTo = some a) :
    sizeOf a < sizeOf n := by
  cases n with
  | mk k s t v c al l col =>
    simp [YamlNode.aliasTo] at h
    subst h
    simp; omega

theorem sizeOfListPos {α : Type} [SizeOf α] (l : List α) : 0 < sizeOf l := by
  cases l <;> simp_arith

/-! ## Data model: hcl positions, ranges and diagnostics

`hcl.Pos` has 1-based Line/Column and a 0-based byte offset.  `hcl.Range`
has a filename plus start and end positions.  `hcl.Diagnostic` carries a
severity, a summary, a detail string and an optional subject range (the
`Expression`/`EvalContext` introspection fields of hcl diagnostics carry
no information the adapter computes and are not modelled). -/

structure HclPos where
  line : Int
  column : Int
  byte : Nat
  deriving DecidableEq, Repr

/-- The zero value of hcl.Pos. -/
def zeroPos : HclPos := { line := 0, column := 0, byte := 0 }

structure HclRange where
  filename : String
  rStart : HclPos
  rEnd : HclPos
  deriving DecidableEq, Repr

inductive Severity where
  | error
  | warning
  deriving DecidableEq, Repr

structure Diagnostic where
  severity : Severity
  summary : String
  detail : String
  subject : Option HclRange
  deriving DecidableEq, Repr

/-- hcl.Range.String() from the hcl collaborator library: it renders
"file:line,col-col" when start and end share a line, and
"file:line,col-line,col" otherwise. -/
def rangeString (r : HclRange) : String :=
  if r.rStart.line = r.rEnd.line then
    r.filename ++ ":" ++ toString r.rStart.line ++ "," ++ toString r.rStart.column
      ++ "-" ++ toString r.rEnd.column
  else
    r.filename ++ ":" ++ toString r.rStart.line ++ "," ++ toString r.rStart.column
      ++ "-" ++ toString r.rEnd.line ++ "," ++ toString r.rEnd.column

/-! ## range.go: byte offsets and line/column conversion

The source buffer is a Go `[]byte`, modelled as `List UInt8`; the newline
byte is 10. -/

/-- The loop of byteOffsetForLineCol: scan the source; on reaching an index
whose current line equals the target line, return `i + (col - 1)` clamped
to the source length; count newlines otherwise; fall through to the source
length when the target line is never reached. -/
def boLoop : List UInt8 → Int → Int → Int → Int → Nat → Nat
  | [], _, _, _, _, srcLen => srcLen
  | b :: rest, i, currentLine, line, col, srcLen =>
    if currentLine = line then
      let targetOffset := i + (col - 1)
      if targetOffset > (srcLen : Int) then srcLen else targetOffset.toNat
    else
      boLoop rest (i + 1) (if b = 10 then currentLine + 1 else currentLine) line col srcLen

/-- byteOffsetForLineCol (range.go): byte offset of a 1-based
(line, column) pair; 0 for invalid coordinates; clamped to the source
length. -/
def byteOffsetForLineCol (src : List UInt8) (line col : Int) : Nat :=
  if line < 1 ∨ col < 1 then 0
  else boLoop src 0 1 line col src.length

/-- The loop of lineColForByteOffset: count newlines among the scanned
prefix, remembering the index of the last one (-1 when none yet). -/
def lcLoop : List UInt8 → Int → Int → Int → Int × Int
  | [], _, line, lastNewline => (line, lastNewline)
  | b :: rest, i, line, lastNewline =>
    if b = 10 then lcLoop rest (i + 1) (line + 1) i
    else lcLoop rest (i + 1) line lastNewline

/-- lineColForByteOffset (range.go): 1-based line and column of a byte
offset, the offset clamped to the source length.  The loop ranges over
`i < offset`, i.e. over the first `offset` bytes of the source. -/
def lineColForByteOffset (src : List UInt8) (offset0 : Nat) : Int × Int :=
  let offset := if offset0 > src.length then src.length else offset0
  let lc := lcLoop (src.take offset) 0 1 (-1)
  (lc.1, (offset : Int) - lc.2)

/-- calculateEndPos (range.go): the (line, column, byte) end position of a
node.  For scalars the end is start plus the byte length of the value,
plus 2 for a single- or double-quoted style, clamped to the source length.
For mappings, sequences and documents it is the recursive end of the last
child (computed from that child's own start coordinates); empty
collections and all other kinds end where they start.  Go's `len` of a
string counts bytes, hence `String.utf8ByteSize`. -/
def calculateEndPos (node : YamlNode) (src : List UInt8) (startByte : Nat) :
    Int × Int × Nat :=
  match node.kind with
  | .scalar =>
    let valueLen := node.value.utf8ByteSize +
      (if node.style == doubleQuotedStyle || node.style == singleQuotedStyle then 2 else 0)
    let endByte := startByte + valueLen
    let endByte := if endByte > src.length then src.length else endByte
    let lc := lineColForByteOffset src endByte
    (lc.1, lc.2, endByte)
  | .mapping =>
    match h : node.content.getLast? with
    | some lastChild =>
      let lastChildStart := byteOffsetForLineCol src lastChild.line lastChild.column
      calculateEndPos lastChild src lastChildStart
    | none => (node.line, node.column, startByte)
  | .sequence =>
    match h : node.content.getLast? with
    | some lastChild =>
      let lastChildStart := byteOffsetForLineCol src lastChild.line lastChild.column
      calculateEndPos lastChild src lastChildStart
    | none => (node.line, node.column, startByte)
  | .document =>
    match h : node.content.getLast? with
    | some lastChild =>
      let lastChildStart := byteOffsetForLineCol src lastChild.line lastChild.column
      calculateEndPos lastChild src lastChildStart
    | none => (node.line, node.column, startByte)
  | _ => (node.line, node.column, startByte)
termination_by sizeOf node
decreasing_by
  all_goals
    have hm : lastChild ∈ node.content := by
      obtain ⟨hne, rfl⟩ := List.mem_getLast?_eq_getLast h
      exact List.getLast_mem hne
    have h1 := List.sizeOf_lt_of_mem hm
    have h2 := YamlNode.sizeOf_content_lt node
    omega

/-- nodeRange (range.go): the hcl.Range covering a node; the empty range
with just the filename for a nil node. -/
def nodeRange (node : Option YamlNode) (filename : String) (src : List UInt8) :
    HclRange :=
  match node with
  | none => { filename := filename, rStart := zeroPos, rEnd := zeroPos }
  | some n =>
    let startByte := byteOffsetForLineCol src n.line n.column
    let ep := calculateEndPos n src startByte
    { filename := filename
      rStart := { line := n.line, column := n.column, byte := startByte }
      rEnd := { line := ep.1, column := ep.2.1, byte := ep.2.2 } }

/-- nodeStartRange (range.go): a zero-width range at the start of the
node. -/
def nodeStartRange (node : Option YamlNode) (filename : String) (src : List UInt8) :
    HclRange :=
  match node with
  | none => { filename := filename, rStart := zeroPos, rEnd := zeroPos }
  | some n =>
    let startByte := byteOffsetForLineCol src n.line n.column
    let pos : HclPos := { line := n.line, column := n.column, byte := startByte }
    { filename := filename, rStart := pos, rEnd := pos }

/-- rangeBetween (range.go): from the start of one node to the end of
another. -/
def rangeBetween (startNode endNode : Option YamlNode) (filename : String)
    (src : List UInt8) : HclRange :=
  let startRange := nodeRange startNode filename src
  let endRange := nodeRange endNode filename src
  { filename := filename, rStart := startRange.rStart, rEnd := endRange.rEnd }

/-! ## Numbers: math/big and strconv collaborators

`big.ParseFloat(value, 10, 512, big.ToNearestEven)` and
`strconv.ParseInt(value, 0, 64)` are the two number parsers the adapter
uses.  A `big.Float` is modelled as an exact value: a rational, or an
infinity (`big.ParseFloat` accepts "inf"/"Inf").  Rounding to the 512-bit
mantissa is not modelled; every number appearing in the theorems below is
exactly representable at that precision. -/

inductive BigFloat where
  | finite (q : ℚ)
  | posInf
  | negInf
  deriving DecidableEq, Repr

def isDigit (c : Char) : Bool := '0' ≤ c && c ≤ '9'

/-- Split a leading run of decimal digits off a character list. -/
def takeDigits : List Char → List Char × List Char
  | [] => ([], [])
  | c :: rest =>
    if isDigit c then
      let r := takeDigits rest
      (c :: r.1, r.2)
    else ([], c :: rest)

def digitsToNat (ds : List Char) : Nat :=
  ds.foldl (fun acc c => acc * 10 + (c.toNat - 48)) 0

/-- Split a leading sign off a character list; `true` means negative. -/
def takeSign : List Char → Bool × List Char
  | '+' :: rest => (false, rest)
  | '-' :: rest => (true, rest)
  | rest => (false, rest)

/-- The mantissa of a base-10 big.Float literal: digits with at most one
point, at least one digit in total; returns (digits value, number of
fractional digits, remaining input). -/
def parseMantissa (cs : List Char) : Option (Nat × Nat × List Char) :=
  let p1 := takeDigits cs
  match p1.2 with
  | '.' :: r2 =>
    let p2 := takeDigits r2
    if p1.1.length + p2.1.length = 0 then none
    else some (digitsToNat (p1.1 ++ p2.1), p2.1.length, p2.2)
  | _ => if p1.1.length = 0 then none else some (digitsToNat p1.1, 0, p1.2)

/-- big.ParseFloat(s, 10, 512, ToNearestEven) from math/big: optional
sign; "inf"/"Inf"; or a decimal mantissa with an optional 'e'/'E'
(decimal) or 'p'/'P' (binary) exponent.  The whole string must be
consumed; underscores are rejected since the base is explicit.  Returns
none exactly when the Go call returns a non-nil error. -/
def bigParseFloat10 (s : String) : Option BigFloat :=
  let sg := takeSign s.toList
  let neg := sg.1
  let cs := sg.2
  if cs = ['i', 'n', 'f'] ∨ cs = ['I', 'n', 'f'] then
    some (if neg then .negInf else .posInf)
  else
    match parseMantissa cs with
    | none => none
    | some (m, frac, rest) =>
      let mant : ℚ := (if neg then -(m : ℚ) else (m : ℚ)) / 10 ^ frac
      match rest with
      | [] => some (.finite mant)
      | e :: rest2 =>
        if e = 'e' ∨ e = 'E' ∨ e = 'p' ∨ e = 'P' then
          let esg := takeSign rest2
          let ed := takeDigits esg.2
          if ed.1.length = 0 ∨ ed.2 ≠ [] then none
          else
            let ev : Int := if esg.1 then -(digitsToNat ed.1 : Int) else (digitsToNat ed.1 : Int)
            let scale : ℚ := if e = 'e' ∨ e = 'E' then (10 : ℚ) ^ ev else (2 : ℚ) ^ ev
            some (.finite (mant * scale))
        else none

def digitValue (c : Char) : Nat :=
  if isDigit c then c.toNat - 48
  else if 'a' ≤ c && c ≤ 'z' then c.toNat - 97 + 10
  else if 'A' ≤ c && c ≤ 'Z' then c.toNat - 65 + 10
  else 99

/-- The digit loop of strconv.ParseUint: digits of the given base with
single underscores allowed between digits (and directly after a base
prefix, signalled by the initial `prevOk`). -/
def digitsLoop (base : Nat) : List Char → Bool → Nat → Option Nat
  | [], prevOk, acc => if prevOk then some acc else none
  | '_' :: rest, prevOk, acc =>
    if prevOk then digitsLoop base rest false acc else none
  | c :: rest, _, acc =>
    if digitValue c < base then digitsLoop base rest true (acc * base + digitValue c)
    else none

/-- strconv.ParseInt(s, 0, 64): optional sign, then base detection from
the prefix ("0x"/"0X" hex, "0o"/"0O" octal, "0b"/"0B" binary, a leading
"0" octal, else decimal; underscores permitted since the base is 0), then
a 64-bit range check.  Returns none exactly when the Go call returns a
non-nil error (syntax or range). -/
def parseIntBase0 (s : String) : Option Int :=
  let sg := takeSign s.toList
  let neg := sg.1
  let parsed : Option Nat :=
    match sg.2 with
    | '0' :: x :: r =>
      if x = 'x' ∨ x = 'X' then digitsLoop 16 r true 0
      else if x = 'o' ∨ x = 'O' then digitsLoop 8 r true 0
      else if x = 'b' ∨ x = 'B' then digitsLoop 2 r true 0
      else digitsLoop 8 ('0' :: x :: r) false 0
    | cs => digitsLoop 10 cs false 0
  match parsed with
  | none => none
  | some mag =>
    if neg then
      if mag ≤ 2 ^ 63 then some (-(mag : Int)) else none
    else
      if mag ≤ 2 ^ 63 - 1 then some (mag : Int) else none

/-- isYAMLNumber (expression adapter): attempts to parse a scalar node's
value as a number; tries big.ParseFloat in base 10 first, then falls back
to strconv.ParseInt with base 0 to recognize hex/octal literals.  Go
returns `(*big.Float, bool)`; the `(nil, false)` outcome is `none`.  The
fallback converts the int64 through float64 (`big.NewFloat(float64(i))`);
that conversion is exact for every magnitude below 2^53 and is modelled
as exact. -/
def isYAMLNumber (node : Option YamlNode) : Option BigFloat :=
  match node with
  | none => none
  | some n =>
    if n.kind ≠ .scalar then none
    else if n.tag ≠ "" ∧ n.tag ≠ "!!int" ∧ n.tag ≠ "!!float" then none
    else
      match bigParseFloat10 n.value with
      | some f => some f
      | none =>
        match parseIntBase0 n.value with
        | some i => some (.finite (i : ℚ))
        | none => none

/-! ## cty values (go-cty collaborator)

The expression adapter produces `cty.Value`s: null (of the dynamic pseudo
type), booleans, arbitrary-precision numbers, strings, tuples, objects,
and the fully-unknown `cty.DynamicVal`.  Objects keep their attributes as
an insertion-ordered association list. -/

inductive CtyValue where
  | nullV
  | boolV (b : Bool)
  | numberV (f : BigFloat)
  | stringV (s : String)
  | tupleV (vs : List CtyValue)
  | objectV (attrs : List (String × CtyValue))
  | dynamicV

/-- convert.Convert(v, cty.String) from go-cty: unknown values convert to
an unknown string, null stays null, strings are unchanged, booleans
render as "true"/"false", numbers render through the collaborator's
decimal formatter, and collection/structural values are an error (the
error message stands in for go-cty's phrasing). -/
def convertToString (numText : BigFloat → String) : CtyValue → Except String CtyValue
  | .dynamicV => .ok .dynamicV
  | .nullV => .ok .nullV
  | .stringV s => .ok (.stringV s)
  | .boolV b => .ok (.stringV (if b then "true" else "false"))
  | .numberV f => .ok (.stringV (numText f))
  | .tupleV _ => .error "tuple value is required"
  | .objectV _ => .error "object value is required"

/-! ## Expression adapter (unnamed/part_003)

The adapter's `Value` method takes a `*hcl.EvalContext`, modelled as
`Option Ctx` for an abstract context type `Ctx`.  Two collaborators are
abstracted: `hclsyntax.ParseTemplate` followed by the template's `Value`
(a single function, including the parse-error early return the source
performs), and go-cty's number-to-string formatter used when a mapping
key converts to a string.  All theorems below hold for every behavior of
these collaborators. -/

structure Collab (Ctx : Type) where
  /-- hclsyntax.ParseTemplate at a start position, then `expr.Value ctx`;
  when the parse has errors the result is `(cty.DynamicVal, parse diags)`
  without evaluating, as in evalStringTemplate. -/
  parseEvalTemplate : String → HclPos → Ctx → CtyValue × List Diagnostic
  /-- go-cty's decimal rendering of a number, used by convert.Convert
  when a mapping key is a number. -/
  numText : BigFloat → String

/-- evalStringTemplate (expression adapter): parse the scalar's raw value
as an HCL template rooted at the scalar's source position and evaluate it
with the context.  The template engine is the collaborator. -/
def evalStringTemplate {Ctx : Type} (C : Collab Ctx) (value : String)
    (ctx : Ctx) (node : YamlNode) (filename : String) (src : List UInt8) :
    CtyValue × List Diagnostic :=
  let srcRange := nodeRange (some node) filename src
  C.parseEvalTemplate value srcRange.rStart ctx

/-- The null check at the top of evalScalar, kept with the source's
nested-`if` shape: the outer condition also admits an empty value with an
empty tag, but the inner condition repeats only the first three
disjuncts, so that empty/untagged case falls through to the remaining
checks. -/
def evalScalarNullCheck (tag value : String) : Option (CtyValue × List Diagnostic) :=
  if tag == "!!null" || value == "null" || value == "~" || (value == "" && tag == "") then
    if tag == "!!null" || value == "null" || value == "~" then
      some (.nullV, [])
    else none
  else none

/-- The `!!bool` check of evalScalar: the classic YAML 1.1 lexical set; a
`!!bool` tag with any other value falls through. -/
def evalScalarBoolCheck (tag value : String) : Option (CtyValue × List Diagnostic) :=
  if tag == "!!bool" then
    match value with
    | "true" | "True" | "TRUE" | "yes" | "Yes" | "YES" | "on" | "On" | "ON" =>
      some (.boolV true, [])
    | "false" | "False" | "FALSE" | "no" | "No" | "NO" | "off" | "Off" | "OFF" =>
      some (.boolV false, [])
    | _ => none
  else none

/-- The `!!int`/`!!float` check of evalScalar: big.ParseFloat in base 10;
on a parse error the scalar falls through to the string case (there is no
strconv fallback here, unlike isYAMLNumber). -/
def evalScalarNumberCheck (tag value : String) : Option (CtyValue × List Diagnostic) :=
  if tag == "!!int" || tag == "!!float" then
    match bigParseFloat10 value with
    | some f => some (.numberV f, [])
    | none => none
  else none

/-- evalScalar (expression adapter): dispatch on the scalar's tag as the
source does — null check, bool check, number check, then the string
default, which parses the value as a template when a context is supplied
and the tag is not `!!binary`. -/
def evalScalar {Ctx : Type} (C : Collab Ctx) (ctx : Option Ctx) (node : YamlNode)
    (filename : String) (src : List UInt8) : CtyValue × List Diagnostic :=
  let value := node.value
  let tag := node.tag
  match evalScalarNullCheck tag value with
  | some r => r
  | none =>
  match evalScalarBoolCheck tag value with
  | some r => r
  | none =>
  match evalScalarNumberCheck tag value with
  | some r => r
  | none =>
  match ctx with
  | some c => if tag ≠ "!!binary" then evalStringTemplate C value c node filename src
              else (.stringV value, [])
  | none => (.stringV value, [])

/-- Look up an association list by key (the model of a Go map read). -/
def assocFind {α : Type} (l : List (String × α)) (name : String) : Option α :=
  match l.find? (fun p => p.1 == name) with
  | some p => some p.2
  | none => none

mutual

/-- Value (expression adapter): dispatch on the node kind; a nil node is
null, scalars go through evalScalar, sequences become tuples, mappings
become objects, aliases follow the alias link (DynamicVal when the link
is nil), and any other kind is DynamicVal. -/
def exprValue {Ctx : Type} (C : Collab Ctx) (ctx : Option Ctx) (e : Option YamlNode)
    (filename : String) (src : List UInt8) : CtyValue × List Diagnostic :=
  match e with
  | none => (.nullV, [])
  | some n =>
    match n.kind with
    | .scalar => evalScalar C ctx n filename src
    | .sequence =>
      let r := evalSequenceLoop C ctx n.content filename src
      (.tupleV r.1, r.2)
    | .mapping => evalMappingLoop C ctx n.content filename src [] [] true []
    | .aliasKind =>
      match h : n.aliasTo with
      | some a => exprValue C ctx (some a) filename src
      | none => (.dynamicV, [])
    | _ => (.dynamicV, [])
termination_by sizeOf e
decreasing_by
  all_goals simp only [Option.some.sizeOf_spec]
  · have := YamlNode.sizeOf_content_lt n; omega
  · have := YamlNode.sizeOf_content_lt n; omega
  · have := YamlNode.sizeOf_aliasTo_lt n a h; omega

/-- The loop of evalSequence: evaluate each child in order, accumulating
values and diagnostics. -/
def evalSequenceLoop {Ctx : Type} (C : Collab Ctx) (ctx : Option Ctx)
    (l : List YamlNode) (filename : String) (src : List UInt8) :
    List CtyValue × List Diagnostic :=
  match l with
  | [] => ([], [])
  | item :: rest =>
    let r := exprValue C ctx (some item) filename src
    let rs := evalSequenceLoop C ctx rest filename src
    (r.1 :: rs.1, r.2 ++ rs.2)
termination_by sizeOf l
decreasing_by
  all_goals simp only [Option.some.sizeOf_spec, List.cons.sizeOf_spec]
  · have := sizeOfListPos rest; omega
  · omega

/-- The loop of evalMapping: walk the [key, val, key, val, ...] content,
evaluating keys and values; convert each key to a string (diagnosing
unconvertible and null keys at the key's range), mark the result dynamic
when a key is unknown, and diagnose duplicate keys against the earlier
definition's recorded range.  The trailing state mirrors the function's
local `attrs`, `attrRanges`, `known` and accumulated diagnostics. -/
def evalMappingLoop {Ctx : Type} (C : Collab Ctx) (ctx : Option Ctx)
    (l : List YamlNode) (filename : String) (src : List UInt8)
    (attrs : List (String × CtyValue)) (attrRanges : List (String × HclRange))
    (known : Bool) (diags : List Diagnostic) : CtyValue × List Diagnostic :=
  match l with
  | keyNode :: valNode :: rest =>
    let nr := exprValue C ctx (some keyNode) filename src
    let vr := exprValue C ctx (some valNode) filename src
    let diags := diags ++ nr.2 ++ vr.2
    match convertToString C.numText nr.1 with
    | .error err =>
      let keyRange := nodeRange (some keyNode) filename src
      evalMappingLoop C ctx rest filename src attrs attrRanges known (diags ++
        [{ severity := .error, summary := "Invalid object key expression",
           detail := "Cannot use this expression as an object key: " ++ err ++ ".",
           subject := some keyRange }])
    | .ok name =>
      match name with
      | .nullV =>
        let keyRange := nodeRange (some keyNode) filename src
        evalMappingLoop C ctx rest filename src attrs attrRanges known (diags ++
          [{ severity := .error, summary := "Invalid object key expression",
             detail := "Cannot use null value as an object key.",
             subject := some keyRange }])
      | .dynamicV => evalMappingLoop C ctx rest filename src attrs attrRanges false diags
      | .stringV nameStr =>
        if (assocFind attrs nameStr).isSome then
          let keyRange := nodeRange (some keyNode) filename src
          let earlier := (assocFind attrRanges nameStr).getD
            { filename := filename, rStart := zeroPos, rEnd := zeroPos }
          evalMappingLoop C ctx rest filename src attrs attrRanges known (diags ++
            [{ severity := .error, summary := "Duplicate object attribute",
               detail := "An attribute named \"" ++ nameStr ++ "\" was already defined at "
                 ++ rangeString earlier ++ ".",
               subject := some keyRange }])
        else
          evalMappingLoop C ctx rest filename src (attrs ++ [(nameStr, vr.1)])
            (attrRanges ++ [(nameStr, nodeRange (some keyNode) filename src)]) known diags
      | _ =>
        -- convertToString only yields dynamic, null or string values;
        -- the remaining constructors are unreachable here.
        evalMappingLoop C ctx rest filename src attrs attrRanges known diags
  | _ => (if known then .objectV attrs else .dynamicV, diags)
termination_by sizeOf l
decreasing_by
  all_goals simp only [Option.some.sizeOf_spec, List.cons.sizeOf_spec]
  all_goals (try have hlp := sizeOfListPos rest) <;> omega

end

/-! ## Body adapter (body.go)

`hcl.Body` and `hcl.Expression` are Go interfaces; the package's type
assertions `IsYAMLBody`/`IsYAMLExpression` test whether the dynamic type
is this package's `*body`/`*expression`.  The interfaces are modelled as
sums with one constructor for this package's implementations and one for
any foreign (native HCL) implementation. -/

structure Body where
  node : Option YamlNode
  filename : String
  src : List UInt8
  /-- hiddenAttrs: attributes already consumed by PartialContent calls,
  a Go `map[string]struct{}` modelled as a duplicate-free name list (nil
  map = empty list). -/
  hiddenAttrs : List String

inductive AnyBody where
  | yamlBody (b : Body)
  | nativeBody

/-- An hcl.Expression value: this package's yaml-backed expression (its
fields src, filename, srcBytes), or a foreign implementation. -/
inductive AnyExpr where
  | yamlExpr (src : Option YamlNode) (filename : String) (srcBytes : List UInt8)
  | nativeExpr

/-- IsYAMLExpression (body.go): the type assertion to `*expression`. -/
def IsYAMLExpression : AnyExpr → Bool
  | .yamlExpr _ _ _ => true
  | .nativeExpr => false

/-- IsYAMLBody (body.go): the type assertion to `*body`. -/
def IsYAMLBody : AnyBody → Bool
  | .yamlBody _ => true
  | .nativeBody => false

/-- NewBody (body.go): wrap a node tree, unwrapping a document node to
its first content child. -/
def NewBody (node : Option YamlNode) (filename : String) (src : List UInt8) : Body :=
  let node :=
    match node with
    | some n =>
      if n.kind = .document then
        match n.content with
        | c :: _ => some c
        | [] => some n
      else some n
    | none => none
  { node := node, filename := filename, src := src, hiddenAttrs := [] }

/-- collectAttrs (body.go): the [key, val, key, val, ...] content of a
mapping node paired up; empty for nil or non-mapping nodes.  The Go loop
`for i := 0; i+1 < len; i += 2` drops a trailing odd element. -/
def pairUp : List YamlNode → List (YamlNode × YamlNode)
  | k :: v :: rest => (k, v) :: pairUp rest
  | _ => []

def collectAttrs (b : Body) : List (YamlNode × YamlNode) :=
  match b.node with
  | some n => if n.kind = .mapping then pairUp n.content else []
  | none => []

/-- MissingItemRange (body.go): a zero-width range at the end of the
node's range; just the filename for a nil node. -/
def MissingItemRange (b : Body) : HclRange :=
  match b.node with
  | none => { filename := b.filename, rStart := zeroPos, rEnd := zeroPos }
  | some n =>
    let r := nodeRange (some n) b.filename b.src
    { filename := b.filename, rStart := r.rEnd, rEnd := r.rEnd }

/-! ### Schemas and body content (hcl collaborator types) -/

structure AttributeSchema where
  name : String
  required : Bool

structure BlockHeaderSchema where
  btype : String
  labelNames : List String

structure BodySchema where
  attributes : List AttributeSchema
  blocks : List BlockHeaderSchema

structure HclAttribute where
  name : String
  expr : AnyExpr
  range : HclRange
  nameRange : HclRange

structure HclBlock where
  btype : String
  labels : List String
  body : AnyBody
  defRange : HclRange
  typeRange : HclRange
  labelRanges : List HclRange

structure BodyContent where
  /-- Go's `map[string]*hcl.Attribute`, modelled as an association list
  in insertion order; lookups take the first match. -/
  attributes : List (String × HclAttribute)
  blocks : List HclBlock
  missingItemRange : HclRange

/-- Building a schema lookup map (`make(map[string]...)` filled by a
loop): a later entry with the same name overwrites an earlier one. -/
def lookupAttrSchema (attrs : List AttributeSchema) (name : String) :
    Option AttributeSchema :=
  attrs.foldl (fun acc a => if a.name == name then some a else acc) none

def lookupBlockSchema (blocks : List BlockHeaderSchema) (name : String) :
    Option BlockHeaderSchema :=
  blocks.foldl (fun acc bl => if bl.btype == name then some bl else acc) none

/-- Inserting into a Go `map[string]struct{}`: a no-op when present. -/
def insertName (s : List String) (n : String) : List String :=
  if s.contains n then s else s ++ [n]

theorem pairUp_sizeOf_le : ∀ l : List YamlNode, sizeOf (pairUp l) ≤ sizeOf l
  | [] => by simp [pairUp]
  | [x] => by simp [pairUp]
  | k :: v :: rest => by
    have ih := pairUp_sizeOf_le rest
    simp only [pairUp, List.cons.sizeOf_spec, Prod.mk.sizeOf_spec]
    omega

mutual

/-- unpackBlock (body.go): recursively extract blocks from the value node
under a block-type key.  While labels remain the value must be a mapping
and each key contributes one label per entry; with no labels left the
node becomes the block content: a null scalar contributes nothing, a
mapping one block, a sequence one block per element, any other scalar an
"Incorrect YAML value type" diagnostic.  The Go function appends into a
caller-owned `*hcl.Blocks`; the translation returns the newly appended
blocks and the diagnostics, with callers concatenating.  (With labels
remaining Go checks `v == nil`; with none left it dereferences `v`
unconditionally — callers never pass nil there, and the nil case of this
translation returns nothing.) -/
def unpackBlock (b : Body) (v : Option YamlNode) (typeName : String)
    (typeRange : HclRange) (labelsLeft labelsUsed : List String)
    (labelRanges : List HclRange) : List HclBlock × List Diagnostic :=
  match labelsLeft with
  | labelName :: restLabels =>
    match v with
    | none =>
      ([], [{ severity := .error, summary := "Missing block label",
              detail := "At least one mapping property is required, whose name represents the "
                ++ typeName ++ " block's " ++ labelName ++ ".",
              subject := some (nodeStartRange none b.filename b.src) }])
    | some n =>
      if n.kind ≠ .mapping then
        ([], [{ severity := .error, summary := "Missing block label",
                detail := "At least one mapping property is required, whose name represents the "
                  ++ typeName ++ " block's " ++ labelName ++ ".",
                subject := some (nodeStartRange (some n) b.filename b.src) }])
      else
        unpackPairs b (pairUp n.content) typeName typeRange restLabels labelsUsed labelRanges

  | [] =>
    -- No more labels: the value is the block content.  Go copies the
    -- collected label/range slices here before storing them, because the
    -- recursion reuses the underlying buffers; with immutable lists the
    -- copy is the list itself.
    match v with
    | none => ([], [])
    | some n =>
      match n.kind with
      | .scalar =>
        if n.tag == "!!null" || n.value == "null" || n.value == "~" || n.value == "" then
          ([], [])
        else
          ([], [{ severity := .error, summary := "Incorrect YAML value type",
                  detail := "A YAML mapping is required here to define block content.",
                  subject := some (nodeStartRange (some n) b.filename b.src) }])
      | .mapping =>
        ([{ btype := typeName, labels := labelsUsed,
            body := .yamlBody { node := some n, filename := b.filename, src := b.src,
                                hiddenAttrs := [] },
            defRange := nodeRange (some n) b.filename b.src,
            typeRange := typeRange, labelRanges := labelRanges }], [])
      | .sequence =>
        (n.content.map (fun item =>
          { btype := typeName, labels := labelsUsed,
            body := .yamlBody { node := some item, filename := b.filename, src := b.src,
                                hiddenAttrs := [] },
            defRange := nodeRange (some item) b.filename b.src,
            typeRange := typeRange, labelRanges := labelRanges }), [])
      | _ => ([], [])
termination_by sizeOf v
decreasing_by
  have h1 := pairUp_sizeOf_le n.content
  have h2 := YamlNode.sizeOf_content_lt n
  simp only [Option.some.sizeOf_spec]
  omega

/-- The label-extraction loop of unpackBlock: each (key, value) entry of
the mapping contributes the key as one more label value and recurses into
the value. -/
def unpackPairs (b : Body) (pairs : List (YamlNode × YamlNode)) (typeName : String)
    (typeRange : HclRange) (labelsLeft labelsUsed : List String)
    (labelRanges : List HclRange) : List HclBlock × List Diagnostic :=
  match pairs with
  | [] => ([], [])
  | (keyNode, valNode) :: rest =>
    let r := unpackBlock b (some valNode) typeName typeRange labelsLeft
      (labelsUsed ++ [keyNode.value])
      (labelRanges ++ [nodeRange (some keyNode) b.filename b.src])
    let rs := unpackPairs b rest typeName typeRange labelsLeft labelsUsed labelRanges
    (r.1 ++ rs.1, r.2 ++ rs.2)
termination_by sizeOf pairs
decreasing_by
  all_goals simp only [Option.some.sizeOf_spec, List.cons.sizeOf_spec, Prod.mk.sizeOf_spec]
  all_goals omega

end

/-- The running state of PartialContent's entry loop: the content being
assembled, the accumulated diagnostics, and the `usedNames` set. -/
structure PCState where
  attributes : List (String × HclAttribute)
  blocks : List HclBlock
  diags : List Diagnostic
  usedNames : List String

/-- The entry loop of PartialContent (body.go): for each unhidden key,
either record an attribute (diagnosing a duplicate against the current
key's range, with the earlier attribute's range quoted in the detail),
or unpack a block, or — under the partial-content contract — silently
leave the entry in place. -/
def pcLoop (b : Body) (schema : BodySchema) :
    List (YamlNode × YamlNode) → PCState → PCState
  | [], st => st
  | (keyNode, valNode) :: rest, st =>
    let attrName := keyNode.value
    if b.hiddenAttrs.contains attrName then pcLoop b schema rest st
    else
      match lookupAttrSchema schema.attributes attrName with
      | some attrS =>
        match assocFind st.attributes attrName with
        | some existing =>
          let keyRange := nodeRange (some keyNode) b.filename b.src
          pcLoop b schema rest { st with diags := st.diags ++
            [{ severity := .error, summary := "Duplicate argument",
               detail := "The argument \"" ++ attrName ++ "\" was already set at "
                 ++ rangeString existing.range ++ ".",
               subject := some keyRange }] }
        | none =>
          let attrRange := rangeBetween (some keyNode) (some valNode) b.filename b.src
          let keyRange := nodeRange (some keyNode) b.filename b.src
          pcLoop b schema rest { st with
            attributes := st.attributes ++ [(attrS.name,
              { name := attrS.name,
                expr := .yamlExpr (some valNode) b.filename b.src,
                range := attrRange, nameRange := keyRange })],
            usedNames := insertName st.usedNames attrName }
      | none =>
        match lookupBlockSchema schema.blocks attrName with
        | some blockS =>
          let keyRange := nodeRange (some keyNode) b.filename b.src
          let r := unpackBlock b (some valNode) blockS.btype keyRange blockS.labelNames [] []
          pcLoop b schema rest { st with
            blocks := st.blocks ++ r.1,
            diags := st.diags ++ r.2,
            usedNames := insertName st.usedNames attrName }
        | none => pcLoop b schema rest st

/-- The required-attribute check at the end of PartialContent: one
"Missing required argument" diagnostic, at the body's missing-item range,
per required schema attribute with no definition. -/
def requiredDiags (b : Body) (schema : BodySchema)
    (attrs : List (String × HclAttribute)) : List Diagnostic :=
  schema.attributes.foldl (fun ds attrS =>
    if attrS.required && (assocFind attrs attrS.name).isNone then
      ds ++ [{ severity := .error, summary := "Missing required argument",
               detail := "The argument \"" ++ attrS.name
                 ++ "\" is required, but no definition was found.",
               subject := some (MissingItemRange b) }]
    else ds) []

/-- PartialContent (body.go): start `usedNames` as a copy of the body's
hidden set, run the entry loop, append the required-attribute
diagnostics, and return the content together with a remainder body that
carries the final `usedNames` as its hidden set. -/
def PartialContent (b : Body) (schema : BodySchema) :
    BodyContent × Body × List Diagnostic :=
  let st0 : PCState :=
    { attributes := [], blocks := [], diags := [], usedNames := b.hiddenAttrs }
  let st := pcLoop b schema (collectAttrs b) st0
  let missing := requiredDiags b schema st.attributes
  let content : BodyContent :=
    { attributes := st.attributes, blocks := st.blocks,
      missingItemRange := MissingItemRange b }
  let unusedBody : Body :=
    { node := b.node, filename := b.filename, src := b.src,
      hiddenAttrs := st.usedNames }
  (content, unusedBody, st.diags ++ missing)

/-! ### Content and the extraneous-property check (body.go) -/

/-- One DP row of levenshteinDistance: given the previous row, the first
cell of which is `pdiag` with `prest` the remaining cells, and the
current row's cell to the left, produce the rest of the current row. -/
def levRowAux (ca : Char) : List Char → List Nat → Nat → Nat → List Nat
  | cb :: bs, pj :: prest, pdiag, left =>
    let cost := if ca = cb then 0 else 1
    let cur := min (pj + 1) (min (left + 1) (pdiag + cost))
    cur :: levRowAux ca bs prest pj cur
  | _, _, _, _ => []

/-- The row iteration of levenshteinDistance: fold each character of the
first string over the previous row, the `i`-th row starting with `i`. -/
def levFold (lb : List Char) : List Char → Nat → List Nat → List Nat
  | [], _, prev => prev
  | ca :: as_, i, prev =>
    match prev with
    | p0 :: ptail => levFold lb as_ (i + 1) (i :: levRowAux ca lb ptail p0 i)
    | [] => []

/-- levenshteinDistance (body.go): two-row dynamic-programming edit
distance.  Go indexes the strings byte by byte; for the ASCII names this
is applied to, characters coincide with bytes. -/
def levenshteinDistance (a b : String) : Nat :=
  let la := a.toList
  let lb := b.toList
  if la.length = 0 then lb.length
  else if lb.length = 0 then la.length
  else (levFold lb la 1 (List.range (lb.length + 1))).getLastD 0

/-- nameSuggestion (body.go): the first suggestion within Levenshtein
distance 2, or "". -/
def nameSuggestion (given : String) (suggestions : List String) : String :=
  match suggestions.find? (fun s => levenshteinDistance given s ≤ 2) with
  | some s => s
  | none => ""

/-- Content (body.go): PartialContent plus an "Extraneous YAML property"
diagnostic, with a near-name suggestion, for every mapping key the schema
did not consume — except the comment key "//". -/
def Content (b : Body) (schema : BodySchema) : BodyContent × List Diagnostic :=
  let pc := PartialContent b schema
  let content := pc.1
  let hiddenAttrs := pc.2.1.hiddenAttrs
  let nameSuggestions :=
    (schema.attributes.foldl (fun acc attrS =>
      if hiddenAttrs.contains attrS.name then acc else acc ++ [attrS.name]) [])
    ++ schema.blocks.map (fun blockS => blockS.btype)
  let diags := (collectAttrs b).foldl (fun ds attr =>
    let name := attr.1.value
    if name == "//" then ds
    else if hiddenAttrs.contains name then ds
    else
      let suggestion := nameSuggestion name nameSuggestions
      let suggestion :=
        if suggestion ≠ "" then " Did you mean \"" ++ suggestion ++ "\"?" else ""
      ds ++ [{ severity := .error, summary := "Extraneous YAML property",
               detail := "No argument or block type is named \"" ++ name ++ "\"."
                 ++ suggestion,
               subject := some (nodeRange (some attr.1) b.filename b.src) }]) pc.2.2
  (content, diags)

/-! ## Template restriction walker (restrictions.go)

The hclsyntax template AST is modelled as a sum with one constructor per
case of `walkExpression`'s type switch.  The three forbidden constructs
carry the range their `Range()` call reports; `ForExpr`'s KeyExpr and
CondExpr pointers may be nil (`walkExpression(nil)` returns at once),
hence the `Option`s. -/

inductive HExpr where
  | functionCall (name : String) (args : List HExpr) (rng : HclRange)
  | forE (collExpr : HExpr) (keyExpr : Option HExpr) (valExpr : HExpr)
      (condExpr : Option HExpr) (rng : HclRange)
  | conditional (condition trueResult falseResult : HExpr) (rng : HclRange)
  | template (parts : List HExpr)
  | templateWrap (wrapped : HExpr)
  | scopeTraversal
  | relativeTraversal (source : HExpr)
  | indexE (collection key : HExpr)
  | binaryOp (lhs rhs : HExpr)
  | unaryOp (val : HExpr)
  | tupleCons (exprs : List HExpr)
  | objectCons (items : List (HExpr × HExpr))
  | splat (source each : HExpr)
  | anonSymbol
  | literalValue
  | parentheses (expression : HExpr)

/-- yamlRestrictionError (restrictions.go). -/
def yamlRestrictionError (summary feature : String) (subject : Option HclRange) :
    Diagnostic :=
  { severity := .error, summary := summary,
    detail := "The " ++ feature ++ " is not supported in ytofu YAML configuration files. "
      ++ "YAML configuration follows the \"Configuration as Data\" principle "
      ++ "and does not support HCL programming constructs.",
    subject := subject }

mutual

/-- walkExpression (restrictions.go): emit a diagnostic for every
function call, `for` expression and conditional, and keep descending —
into the forbidden nodes' children too, so nested violations are all
reported in one pass.  The Go function appends into a `*hcl.Diagnostics`;
the translation returns the appended diagnostics in emission order. -/
def walkExpression : HExpr → List Diagnostic
  | .functionCall name args rng =>
    yamlRestrictionError "Functions not supported in YAML"
      ("function call \"" ++ name ++ "()\"") (some rng) :: walkExprList args
  | .forE collExpr keyExpr valExpr condExpr rng =>
    yamlRestrictionError "for expressions not supported in YAML"
      "\"for\" expression" (some rng)
      :: (walkExpression collExpr ++ walkExprOpt keyExpr ++ walkExpression valExpr
          ++ walkExprOpt condExpr)
  | .conditional condition trueResult falseResult rng =>
    yamlRestrictionError "Conditionals not supported in YAML"
      "conditional (ternary) expression" (some rng)
      :: (walkExpression condition ++ walkExpression trueResult
          ++ walkExpression falseResult)
  | .template parts => walkExprList parts
  | .templateWrap wrapped => walkExpression wrapped
  | .scopeTraversal => []
  | .relativeTraversal source => walkExpression source
  | .indexE collection key => walkExpression collection ++ walkExpression key
  | .binaryOp lhs rhs => walkExpression lhs ++ walkExpression rhs
  | .unaryOp val => walkExpression val
  | .tupleCons exprs => walkExprList exprs
  | .objectCons items => walkExprPairs items
  | .splat source each => walkExpression source ++ walkExpression each
  | .anonSymbol => []
  | .literalValue => []
  | .parentheses expression => walkExpression expression

/-- `walkExpression` over a nil-able subexpression (walkExpression(nil)
returns immediately). -/
def walkExprOpt : Option HExpr → List Diagnostic
  | none => []
  | some e => walkExpression e

/-- `walkExpression` over each element of a slice in order. -/
def walkExprList : List HExpr → List Diagnostic
  | [] => []
  | e :: rest => walkExpression e ++ walkExprList rest

/-- `walkExpression` over the key and value of each ObjectConsExpr item
in order. -/
def walkExprPairs : List (HExpr × HExpr) → List Diagnostic
  | [] => []
  | (k, v) :: rest => walkExpression k ++ walkExpression v ++ walkExprPairs rest

end

/-- ValidateTemplateExpression (restrictions.go). -/
def ValidateTemplateExpression (expr : HExpr) : List Diagnostic :=
  walkExpression expr

/-! ## Front door (parser_yaml.go, multi-document implementation)

The YAML decoder is a collaborator: `decoder.Decode` is called until EOF,
each call yielding either a document node or an error.  The stream of
decode outcomes is the model's input; EOF is the end of the list. -/

inductive DecodeResult where
  | ok (root : YamlNode)
  | err (msg : String)

structure HclFile where
  body : Body
  bytes : List UInt8

/-- An empty document as the decode loop skips it: an undecoded node
(kind 0) or a document node with no content. -/
def isEmptyDocNode (root : YamlNode) : Bool :=
  root.kind = .zeroKind ∨ (root.kind = .document ∧ root.content.length = 0)

/-- The decode loop of parseYAML: on a decode error, append one "Invalid
YAML syntax" diagnostic and return the files collected so far; skip empty
documents; wrap every other document root in a body adapter sharing the
original source bytes. -/
def parseYAMLLoop (src : List UInt8) (filename : String) :
    List DecodeResult → List HclFile → List HclFile × List Diagnostic
  | [], files => (files, [])
  | .err msg :: _, files =>
    (files, [{ severity := .error, summary := "Invalid YAML syntax",
               detail := "The file \"" ++ filename ++ "\" contains invalid YAML: "
                 ++ msg,
               subject := none }])
  | .ok root :: rest, files =>
    if isEmptyDocNode root then parseYAMLLoop src filename rest files
    else parseYAMLLoop src filename rest
      (files ++ [{ body := NewBody (some root) filename src, bytes := src }])

/-- The synthesized root for an input with no non-empty documents: a
document node holding one empty mapping node (all other fields zero). -/
def emptyMappingNode : YamlNode := .mk .mapping 0 "" "" [] none 0 0

def emptyRootNode : YamlNode := .mk .document 0 "" "" [emptyMappingNode] none 0 0

/-- parseYAML (parser_yaml.go): run the decode loop; when it ends at EOF
with no files collected, synthesize a single file whose body wraps an
empty mapping; the non-error path returns nil diagnostics. -/
def parseYAML (src : List UInt8) (filename : String) (stream : List DecodeResult) :
    List HclFile × List Diagnostic :=
  let r := parseYAMLLoop src filename stream []
  match r.2 with
  | [] =>
    if r.1.length = 0 then
      ([{ body := NewBody (some emptyRootNode) filename src, bytes := src }], [])
    else (r.1, [])
  | diags => (r.1, diags)

/-! ## Statement apparatus

Predicates and concrete instances used by the theorems below. -/

/-- A decode outcome that parseYAML's loop skips: a successfully decoded
empty document. -/
def isEmptyDocResult : DecodeResult → Bool
  | .ok root => isEmptyDocNode root
  | .err _ => false

/-- A name the PartialContent entry loop consumes: a schema attribute or
block-type name. -/
def isSchemaName (schema : BodySchema) (name : String) : Bool :=
  (lookupAttrSchema schema.attributes name).isSome
  || (lookupBlockSchema schema.blocks name).isSome

/-- The names a single PartialContent call consumes from a body: the
mapping keys that match the schema and are not already hidden. -/
def consumedNames (b : Body) (schema : BodySchema) : List String :=
  ((collectAttrs b).filter (fun kv =>
    !(b.hiddenAttrs.contains kv.1.value) && isSchemaName schema kv.1.value)).map
    (fun kv => kv.1.value)

/-- The count-newlines helper used to reason about `lcLoop`. -/
def cnt10 : List UInt8 → Nat
  | [] => 0
  | b :: rest => (if b = 10 then 1 else 0) + cnt10 rest

mutual

/-- Whether a function call occurs in an expression along the exact
descent paths `walkExpression` takes. -/
def hasFunc : HExpr → Bool
  | .functionCall _ _ _ => true
  | .forE collExpr keyExpr valExpr condExpr _ =>
    hasFunc collExpr || hasFuncOpt keyExpr || hasFunc valExpr || hasFuncOpt condExpr
  | .conditional condition trueResult falseResult _ =>
    hasFunc condition || hasFunc trueResult || hasFunc falseResult
  | .template parts => hasFuncList parts
  | .templateWrap wrapped => hasFunc wrapped
  | .scopeTraversal => false
  | .relativeTraversal source => hasFunc source
  | .indexE collection key => hasFunc collection || hasFunc key
  | .binaryOp lhs rhs => hasFunc lhs || hasFunc rhs
  | .unaryOp val => hasFunc val
  | .tupleCons exprs => hasFuncList exprs
  | .objectCons items => hasFuncPairs items
  | .splat source each => hasFunc source || hasFunc each
  | .anonSymbol => false
  | .literalValue => false
  | .parentheses expression => hasFunc expression

def hasFuncOpt : Option HExpr → Bool
  | none => false
  | some e => hasFunc e

def hasFuncList : List HExpr → Bool
  | [] => false
  | e :: rest => hasFunc e || hasFuncList rest

def hasFuncPairs : List (HExpr × HExpr) → Bool
  | [] => false
  | (k, v) :: rest => hasFunc k || hasFunc v || hasFuncPairs rest

end

mutual

/-- Whether the expression contains, along `walkExpression`'s descent
paths, a conditional one of whose three subexpressions contains a
function call: the claim's "function call nested inside a
conditional". -/
def hasCondFunc : HExpr → Bool
  | .functionCall _ args _ => hasCondFuncList args
  | .forE collExpr keyExpr valExpr condExpr _ =>
    hasCondFunc collExpr || hasCondFuncOpt keyExpr || hasCondFunc valExpr
      || hasCondFuncOpt condExpr
  | .conditional condition trueResult falseResult _ =>
    (hasFunc condition || hasFunc trueResult || hasFunc falseResult)
    || (hasCondFunc condition || hasCondFunc trueResult || hasCondFunc falseResult)
  | .template parts => hasCondFuncList parts
  | .templateWrap wrapped => hasCondFunc wrapped
  | .scopeTraversal => false
  | .relativeTraversal source => hasCondFunc source
  | .indexE collection key => hasCondFunc collection || hasCondFunc key
  | .binaryOp lhs rhs => hasCondFunc lhs || hasCondFunc rhs
  | .unaryOp val => hasCondFunc val
  | .tupleCons exprs => hasCondFuncList exprs
  | .objectCons items => hasCondFuncPairs items
  | .splat source each => hasCondFunc source || hasCondFunc each
  | .anonSymbol => false
  | .literalValue => false
  | .parentheses expression => hasCondFunc expression

def hasCondFuncOpt : Option HExpr → Bool
  | none => false
  | some e => hasCondFunc e

def hasCondFuncList : List HExpr → Bool
  | [] => false
  | e :: rest => hasCondFunc e || hasCondFuncList rest

def hasCondFuncPairs : List (HExpr × HExpr) → Bool
  | [] => false
  | (k, v) :: rest => hasCondFunc k || hasCondFunc v || hasCondFuncPairs rest

end

/-- A collaborator instance over the trivial context type, for theorems
about evaluations that never reach the template engine. -/
def unitCollab : Collab Unit :=
  { parseEvalTemplate := fun _ _ _ => (.dynamicV, []), numText := fun _ => "" }

/-- A scalar node with empty value and no tag — the shape yaml.v3 gives
an explicitly `!!str`-less empty plain scalar would carry an implicit
tag, but the adapter's own condition singles out this field combination,
so it is the decisive input for claim C1. -/
def c1Node : YamlNode := .mk .scalar 0 "" "" [] none 1 1

/-! # Theorems -/

theorem exprValue_scalar {Ctx : Type} (C : Collab Ctx) (ctx : Option Ctx)
    (node : YamlNode) (fn : String) (src : List UInt8) (hk : node.kind = .scalar) :
    exprValue C ctx (some node) fn src = evalScalar C ctx node fn src := by
  rw [exprValue]
  split
  · rfl
  all_goals simp_all

/-- C1: for a scalar whose tag is `!!null` or whose value is "null" or
"~", evaluation returns null with no diagnostics, for every collaborator
behavior and every context including nil; but the claim's remaining case
— an empty value with no explicit tag — falls through evalScalar's nested
null check and evaluates to the empty string under a nil context (see the
counterexample), so the claim holds only after removing that case. -/
theorem c1_null_scalar_evaluation {Ctx : Type} (C : Collab Ctx) (ctx : Option Ctx)
    (node : YamlNode) (filename : String) (src : List UInt8)
    (hk : node.kind = .scalar) :
    ((node.tag = "!!null" ∨ node.value = "null" ∨ node.value = "~") →
      exprValue C ctx (some node) filename src = (.nullV, [])) ∧
    (node.tag = "" → node.value = "" →
      exprValue C none (some node) filename src = (.stringV "", [])) := by
  constructor
  · intro hv
    rw [exprValue_scalar C ctx node filename src hk]
    rcases hv with h | h | h <;>
      simp [evalScalar, evalScalarNullCheck, evalScalarBoolCheck,
        evalScalarNumberCheck, h]
  · intro ht hv
    rw [exprValue_scalar C none node filename src hk]
    simp [evalScalar, evalScalarNullCheck, evalScalarBoolCheck,
      evalScalarNumberCheck, ht, hv]

/-- C1 witness: the theorem applied to a concrete `!!null`-tagged scalar
(null result) and to the concrete empty untagged scalar (empty-string
result). -/
theorem c1_null_scalar_evaluation_witness :
    exprValue unitCollab none (some (.mk .scalar 0 "!!null" "" [] none 1 1))
      "test.yaml" [] = (.nullV, []) ∧
    exprValue unitCollab none (some c1Node) "test.yaml" [] = (.stringV "", []) :=
  ⟨(c1_null_scalar_evaluation unitCollab none (.mk .scalar 0 "!!null" "" [] none 1 1)
      "test.yaml" [] rfl).1 (Or.inl rfl),
   (c1_null_scalar_evaluation unitCollab none c1Node "test.yaml" [] rfl).2 rfl rfl⟩

/-- C1 counterexample: the scalar with empty value and no explicit tag
does not evaluate to null — the nil-context evaluation yields the empty
string — refuting the claim's "or the empty string with no explicit tag
⇒ null" case. -/
theorem c1_counterexample :
    exprValue unitCollab none (some c1Node) "test.yaml" [] = (.stringV "", []) ∧
    (exprValue unitCollab none (some c1Node) "test.yaml" []).1 ≠ .nullV := by
  have h : exprValue unitCollab none (some c1Node) "test.yaml" [] = (.stringV "", []) := by
    rw [exprValue_scalar unitCollab none c1Node "test.yaml" [] rfl]
    simp [evalScalar, evalScalarNullCheck, evalScalarBoolCheck,
      evalScalarNumberCheck, c1Node, YamlNode.tag, YamlNode.value]
  refine ⟨h, ?_⟩
  rw [h]
  simp

/-- C6: for a scalar tagged `!!int` or `!!float`, evaluation parses the
value with big.ParseFloat in base 10 and yields the parsed number; but
when base-10 parsing fails, evaluation has no native-int fallback — the
scalar falls through to the string default — and the
strconv.ParseInt(·, 0, 64) fallback that recognizes hex/octal literals
exists only in the separate (uncalled) helper isYAMLNumber. -/
theorem c6_number_scalar_evaluation {Ctx : Type} (C : Collab Ctx) (node : YamlNode)
    (filename : String) (src : List UInt8) (hk : node.kind = .scalar)
    (ht : node.tag = "!!int" ∨ node.tag = "!!float") :
    (∀ f, bigParseFloat10 node.value = some f →
      ∀ ctx : Option Ctx, exprValue C ctx (some node) filename src = (.numberV f, [])) ∧
    (bigParseFloat10 node.value = none → node.value ≠ "null" → node.value ≠ "~" →
      exprValue C none (some node) filename src = (.stringV node.value, [])) ∧
    (∀ i : Int, bigParseFloat10 node.value = none → parseIntBase0 node.value = some i →
      isYAMLNumber (some node) = some (.finite (i : ℚ))) := by
  refine ⟨?_, ?_, ?_⟩
  · intro f hf ctx
    have h1 : node.value ≠ "null" := by
      intro h
      rw [h, (by decide : bigParseFloat10 "null" = none)] at hf
      exact Option.noConfusion hf
    have h2 : node.value ≠ "~" := by
      intro h
      rw [h, (by decide : bigParseFloat10 "~" = none)] at hf
      exact Option.noConfusion hf
    rw [exprValue_scalar C ctx node filename src hk]
    rcases ht with h | h <;>
      simp [evalScalar, evalScalarNullCheck, evalScalarBoolCheck,
        evalScalarNumberCheck, h, h1, h2, hf]
  · intro hf h1 h2
    rw [exprValue_scalar C none node filename src hk]
    rcases ht with h | h <;>
      simp [evalScalar, evalScalarNullCheck, evalScalarBoolCheck,
        evalScalarNumberCheck, h, h1, h2, hf]
  · intro i hf hi
    rcases ht with h | h <;>
      simp [isYAMLNumber, hk, h, hf, hi]

theorem bigParseFloat10_fortytwo : bigParseFloat10 "42" = some (.finite 42) := by
  have h0 : takeSign "42".toList = (false, ['4', '2']) := by decide
  have h2 : parseMantissa ['4', '2'] = some (42, 0, []) := by decide
  have hinf : ¬(['4', '2'] = ['i', 'n', 'f'] ∨ ['4', '2'] = ['I', 'n', 'f']) := by decide
  simp only [bigParseFloat10, h0, h2, hinf, if_neg]
  norm_num

/-- C6 witness: applying the theorem at `!!int 42` (base-10 success:
number 42) and at `!!int 0x1A` (base-10 failure: the string "0x1A" from
evaluation, while isYAMLNumber yields 26 through the strconv
fallback). -/
theorem c6_number_scalar_evaluation_witness :
    exprValue unitCollab none (some (.mk .scalar 0 "!!int" "42" [] none 1 1))
      "test.yaml" [] = (.numberV (.finite 42), []) ∧
    exprValue unitCollab none (some (.mk .scalar 0 "!!int" "0x1A" [] none 1 1))
      "test.yaml" [] = (.stringV "0x1A", []) ∧
    isYAMLNumber (some (.mk .scalar 0 "!!int" "0x1A" [] none 1 1)) =
      some (.finite (26 : ℚ)) := by
  refine ⟨?_, ?_, ?_⟩
  · exact (c6_number_scalar_evaluation unitCollab (.mk .scalar 0 "!!int" "42" [] none 1 1)
      "test.yaml" [] rfl (Or.inl rfl)).1 (.finite 42) bigParseFloat10_fortytwo none
  · exact (c6_number_scalar_evaluation unitCollab (.mk .scalar 0 "!!int" "0x1A" [] none 1 1)
      "test.yaml" [] rfl (Or.inl rfl)).2.1 (by decide) (by decide) (by decide)
  · have := (c6_number_scalar_evaluation unitCollab
      (.mk .scalar 0 "!!int" "0x1A" [] none 1 1) "test.yaml" [] rfl
      (Or.inl rfl)).2.2 26 (by decide) (by decide)
    simpa using this

/-- C6 counterexample: the scalar tagged `!!int` with value "0x1A"
evaluates (nil context) to the string "0x1A", not to the number 26 the
claim's fallback would produce — the fallback is absent from
evaluation. -/
theorem c6_counterexample :
    exprValue unitCollab none (some (.mk .scalar 0 "!!int" "0x1A" [] none 1 1))
      "test.yaml" [] = (.stringV "0x1A", []) ∧
    (exprValue unitCollab none (some (.mk .scalar 0 "!!int" "0x1A" [] none 1 1))
      "test.yaml" []).1 ≠ .numberV (.finite 26) := by
  have hnone : bigParseFloat10 "0x1A" = none := by decide
  have h : exprValue unitCollab none (some (.mk .scalar 0 "!!int" "0x1A" [] none 1 1))
      "test.yaml" [] = (.stringV "0x1A", []) := by
    rw [exprValue_scalar unitCollab none (.mk .scalar 0 "!!int" "0x1A" [] none 1 1)
      "test.yaml" [] rfl]
    simp [evalScalar, evalScalarNullCheck, evalScalarBoolCheck,
      evalScalarNumberCheck, YamlNode.tag, YamlNode.value, hnone]
  refine ⟨h, ?_⟩
  rw [h]
  simp

theorem parseYAMLLoop_all_empty (src : List UInt8) (filename : String) :
    ∀ (stream : List DecodeResult) (files : List HclFile),
      stream.all isEmptyDocResult = true →
      parseYAMLLoop src filename stream files = (files, [])
  | [], files, _ => rfl
  | .ok root :: rest, files, h => by
    simp only [List.all_cons, Bool.and_eq_true, isEmptyDocResult] at h
    simp only [parseYAMLLoop, h.1, if_pos]
    exact parseYAMLLoop_all_empty src filename rest files h.2
  | .err msg :: rest, files, h => by
    simp [isEmptyDocResult] at h

/-- C3: for a decode stream consisting only of empty documents — which is
what the YAML decoder collaborator produces for zero bytes (an empty
stream) or for bare `---` separators — parseYAML returns exactly one
file, whose body wraps an empty mapping node (the document wrapper is
unwrapped by NewBody), and nil diagnostics. -/
theorem c3_parse_empty_input (src : List UInt8) (filename : String)
    (stream : List DecodeResult) (h : stream.all isEmptyDocResult = true) :
    parseYAML src filename stream =
      ([{ body := { node := some emptyMappingNode, filename := filename, src := src,
                    hiddenAttrs := [] }, bytes := src }], []) := by
  have hl := parseYAMLLoop_all_empty src filename stream [] h
  simp [parseYAML, hl, NewBody, emptyRootNode, YamlNode.kind, YamlNode.content]

/-- C3 witness: the theorem applied to a stream holding one bare empty
document. -/
theorem c3_parse_empty_input_witness :
    ([DecodeResult.ok (.mk .document 0 "" "" [] none 1 1)].all isEmptyDocResult = true) ∧
    parseYAML [] "main.tofu.yaml" [DecodeResult.ok (.mk .document 0 "" "" [] none 1 1)] =
      ([{ body := { node := some emptyMappingNode, filename := "main.tofu.yaml",
                    src := [], hiddenAttrs := [] }, bytes := [] }], []) :=
  ⟨by decide, c3_parse_empty_input [] "main.tofu.yaml" _ (by decide)⟩

mutual

theorem hasFunc_mem_walk : ∀ e : HExpr, hasFunc e = true →
    ∃ d ∈ walkExpression e, d.summary = "Functions not supported in YAML"
  | .functionCall name args rng, _ =>
    ⟨yamlRestrictionError "Functions not supported in YAML"
      ("function call \"" ++ name ++ "()\"") (some rng), by simp [walkExpression], rfl⟩
  | .forE c k v cond rng, h => by
    simp only [hasFunc, Bool.or_eq_true] at h
    rcases h with ((h | h) | h) | h
    · obtain ⟨d, hd, hs⟩ := hasFunc_mem_walk c h
      exact ⟨d, by simp [walkExpression, hd], hs⟩
    · obtain ⟨d, hd, hs⟩ := hasFuncOpt_mem_walk k h
      exact ⟨d, by simp [walkExpression, hd], hs⟩
    · obtain ⟨d, hd, hs⟩ := hasFunc_mem_walk v h
      exact ⟨d, by simp [walkExpression, hd], hs⟩
    · obtain ⟨d, hd, hs⟩ := hasFuncOpt_mem_walk cond h
      exact ⟨d, by simp [walkExpression, hd], hs⟩
  | .conditional c t f rng, h => by
    simp only [hasFunc, Bool.or_eq_true] at h
    rcases h with (h | h) | h
    · obtain ⟨d, hd, hs⟩ := hasFunc_mem_walk c h
      exact ⟨d, by simp [walkExpression, hd], hs⟩
    · obtain ⟨d, hd, hs⟩ := hasFunc_mem_walk t h
      exact ⟨d, by simp [walkExpression, hd], hs⟩
    · obtain ⟨d, hd, hs⟩ := hasFunc_mem_walk f h
      exact ⟨d, by simp [walkExpression, hd], hs⟩
  | .template parts, h => by
    obtain ⟨d, hd, hs⟩ := hasFuncList_mem_walk parts (by simpa [hasFunc] using h)
    exact ⟨d, by simp [walkExpression, hd], hs⟩
  | .templateWrap w, h => by
    obtain ⟨d, hd, hs⟩ := hasFunc_mem_walk w (by simpa [hasFunc] using h)
    exact ⟨d, by simp [walkExpression, hd], hs⟩
  | .relativeTraversal s, h => by
    obtain ⟨d, hd, hs⟩ := hasFunc_mem_walk s (by simpa [hasFunc] using h)
    exact ⟨d, by simp [walkExpression, hd], hs⟩
  | .indexE coll key, h => by
    simp only [hasFunc, Bool.or_eq_true] at h
    rcases h with h | h
    · obtain ⟨d, hd, hs⟩ := hasFunc_mem_walk coll h
      exact ⟨d, by simp [walkExpression, hd], hs⟩
    · obtain ⟨d, hd, hs⟩ := hasFunc_mem_walk key h
      exact ⟨d, by simp [walkExpression, hd], hs⟩
  | .binaryOp l r, h => by
    simp only [hasFunc, Bool.or_eq_true] at h
    rcases h with h | h
    · obtain ⟨d, hd, hs⟩ := hasFunc_mem_walk l h
      exact ⟨d, by simp [walkExpression, hd], hs⟩
    · obtain ⟨d, hd, hs⟩ := hasFunc_mem_walk r h
      exact ⟨d, by simp [walkExpression, hd], hs⟩
  | .unaryOp v, h => by
    obtain ⟨d, hd, hs⟩ := hasFunc_mem_walk v (by simpa [hasFunc] using h)
    exact ⟨d, by simp [walkExpression, hd], hs⟩
  | .tupleCons exprs, h => by
    obtain ⟨d, hd, hs⟩ := hasFuncList_mem_walk exprs (by simpa [hasFunc] using h)
    exact ⟨d, by simp [walkExpression, hd], hs⟩
  | .objectCons items, h => by
    obtain ⟨d, hd, hs⟩ := hasFuncPairs_mem_walk items (by simpa [hasFunc] using h)
    exact ⟨d, by simp [walkExpression, hd], hs⟩
  | .splat s e2, h => by
    simp only [hasFunc, Bool.or_eq_true] at h
    rcases h with h | h
    · obtain ⟨d, hd, hs⟩ := hasFunc_mem_walk s h
      exact ⟨d, by simp [walkExpression, hd], hs⟩
    · obtain ⟨d, hd, hs⟩ := hasFunc_mem_walk e2 h
      exact ⟨d, by simp [walkExpression, hd], hs⟩
  | .parentheses e2, h => by
    obtain ⟨d, hd, hs⟩ := hasFunc_mem_walk e2 (by simpa [hasFunc] using h)
    exact ⟨d, by simp [walkExpression, hd], hs⟩

theorem hasFuncOpt_mem_walk : ∀ o : Option HExpr, hasFuncOpt o = true →
    ∃ d ∈ walkExprOpt o, d.summary = "Functions not supported in YAML"
  | some e, h => by
    obtain ⟨d, hd, hs⟩ := hasFunc_mem_walk e (by simpa [hasFuncOpt] using h)
    exact ⟨d, by simpa [walkExprOpt] using hd, hs⟩

theorem hasFuncList_mem_walk : ∀ l : List HExpr, hasFuncList l = true →
    ∃ d ∈ walkExprList l, d.summary = "Functions not supported in YAML"
  | e :: rest, h => by
    simp only [hasFuncList, Bool.or_eq_true] at h
    rcases h with h | h
    · obtain ⟨d, hd, hs⟩ := hasFunc_mem_walk e h
      exact ⟨d, by simp [walkExprList, hd], hs⟩
    · obtain ⟨d, hd, hs⟩ := hasFuncList_mem_walk rest h
      exact ⟨d, by simp [walkExprList, hd], hs⟩

theorem hasFuncPairs_mem_walk : ∀ ps : List (HExpr × HExpr), hasFuncPairs ps = true →
    ∃ d ∈ walkExprPairs ps, d.summary = "Functions not supported in YAML"
  | (k, v) :: rest, h => by
    simp only [hasFuncPairs, Bool.or_eq_true] at h
    rcases h with (h | h) | h
    · obtain ⟨d, hd, hs⟩ := hasFunc_mem_walk k h
      exact ⟨d, by simp [walkExprPairs, hd], hs⟩
    · obtain ⟨d, hd, hs⟩ := hasFunc_mem_walk v h
      exact ⟨d, by simp [walkExprPairs, hd], hs⟩
    · obtain ⟨d, hd, hs⟩ := hasFuncPairs_mem_walk rest h
      exact ⟨d, by simp [walkExprPairs, hd], hs⟩

end

/-- The conjunction the nested-violation lemmas establish: both a
conditional diagnostic and a function diagnostic occur in the walk's
output. -/
def BothSummaries (ds : List Diagnostic) : Prop :=
  (∃ d ∈ ds, d.summary = "Conditionals not supported in YAML") ∧
  (∃ d ∈ ds, d.summary = "Functions not supported in YAML")

theorem BothSummaries.mono {ds ds' : List Diagnostic}
    (hsub : ∀ d ∈ ds, d ∈ ds') (h : BothSummaries ds) : BothSummaries ds' :=
  ⟨⟨h.1.choose, hsub _ h.1.choose_spec.1, h.1.choose_spec.2⟩,
   ⟨h.2.choose, hsub _ h.2.choose_spec.1, h.2.choose_spec.2⟩⟩

mutual

theorem hasCondFunc_mem_walk : ∀ e : HExpr, hasCondFunc e = true →
    BothSummaries (walkExpression e)
  | .functionCall name args rng, h => by
    have := hasCondFuncList_mem_walk args (by simpa [hasCondFunc] using h)
    exact this.mono (fun d hd => by simp [walkExpression, hd])
  | .forE c k v cond rng, h => by
    simp only [hasCondFunc, Bool.or_eq_true] at h
    rcases h with ((h | h) | h) | h
    · exact (hasCondFunc_mem_walk c h).mono (fun d hd => by simp [walkExpression, hd])
    · exact (hasCondFuncOpt_mem_walk k h).mono (fun d hd => by simp [walkExpression, hd])
    · exact (hasCondFunc_mem_walk v h).mono (fun d hd => by simp [walkExpression, hd])
    · exact (hasCondFuncOpt_mem_walk cond h).mono (fun d hd => by simp [walkExpression, hd])
  | .conditional c t f rng, h => by
    simp only [hasCondFunc, Bool.or_eq_true] at h
    have hcond : ∃ d ∈ walkExpression (.conditional c t f rng),
        d.summary = "Conditionals not supported in YAML" :=
      ⟨yamlRestrictionError "Conditionals not supported in YAML"
        "conditional (ternary) expression" (some rng), by simp [walkExpression], rfl⟩
    rcases h with ((h | h) | h) | ((h | h) | h)
    · obtain ⟨d, hd, hs⟩ := hasFunc_mem_walk c h
      exact ⟨hcond, ⟨d, by simp [walkExpression, hd], hs⟩⟩
    · obtain ⟨d, hd, hs⟩ := hasFunc_mem_walk t h
      exact ⟨hcond, ⟨d, by simp [walkExpression, hd], hs⟩⟩
    · obtain ⟨d, hd, hs⟩ := hasFunc_mem_walk f h
      exact ⟨hcond, ⟨d, by simp [walkExpression, hd], hs⟩⟩
    · exact (hasCondFunc_mem_walk c h).mono (fun d hd => by simp [walkExpression, hd])
    · exact (hasCondFunc_mem_walk t h).mono (fun d hd => by simp [walkExpression, hd])
    · exact (hasCondFunc_mem_walk f h).mono (fun d hd => by simp [walkExpression, hd])
  | .template parts, h => by
    have := hasCondFuncList_mem_walk parts (by simpa [hasCondFunc] using h)
    exact this.mono (fun d hd => by simp [walkExpression, hd])
  | .templateWrap w, h => by
    have := hasCondFunc_mem_walk w (by simpa [hasCondFunc] using h)
    exact this.mono (fun d hd => by simp [walkExpression, hd])
  | .relativeTraversal s, h => by
    have := hasCondFunc_mem_walk s (by simpa [hasCondFunc] using h)
    exact this.mono (fun d hd => by simp [walkExpression, hd])
  | .indexE coll key, h => by
    simp only [hasCondFunc, Bool.or_eq_true] at h
    rcases h with h | h
    · exact (hasCondFunc_mem_walk coll h).mono (fun d hd => by simp [walkExpression, hd])
    · exact (hasCondFunc_mem_walk key h).mono (fun d hd => by simp [walkExpression, hd])
  | .binaryOp l r, h => by
    simp only [hasCondFunc, Bool.or_eq_true] at h
    rcases h with h | h
    · exact (hasCondFunc_mem_walk l h).mono (fun d hd => by simp [walkExpression, hd])
    · exact (hasCondFunc_mem_walk r h).mono (fun d hd => by simp [walkExpression, hd])
  | .unaryOp v, h => by
    have := hasCondFunc_mem_walk v (by simpa [hasCondFunc] using h)
    exact this.mono (fun d hd => by simp [walkExpression, hd])
  | .tupleCons exprs, h => by
    have := hasCondFuncList_mem_walk exprs (by simpa [hasCondFunc] using h)
    exact this.mono (fun d hd => by simp [walkExpression, hd])
  | .objectCons items, h => by
    have := hasCondFuncPairs_mem_walk items (by simpa [hasCondFunc] using h)
    exact this.mono (fun d hd => by simp [walkExpression, hd])
  | .splat s e2, h => by
    simp only [hasCondFunc, Bool.or_eq_true] at h
    rcases h with h | h
    · exact (hasCondFunc_mem_walk s h).mono (fun d hd => by simp [walkExpression, hd])
    · exact (hasCondFunc_mem_walk e2 h).mono (fun d hd => by simp [walkExpression, hd])
  | .parentheses e2, h => by
    have := hasCondFunc_mem_walk e2 (by simpa [hasCondFunc] using h)
    exact this.mono (fun d hd => by simp [walkExpression, hd])

theorem hasCondFuncOpt_mem_walk : ∀ o : Option HExpr, hasCondFuncOpt o = true →
    BothSummaries (walkExprOpt o)
  | some e, h => by
    have := hasCondFunc_mem_walk e (by simpa [hasCondFuncOpt] using h)
    exact this.mono (fun d hd => by simpa [walkExprOpt] using hd)

theorem hasCondFuncList_mem_walk : ∀ l : List HExpr, hasCondFuncList l = true →
    BothSummaries (walkExprList l)
  | e :: rest, h => by
    simp only [hasCondFuncList, Bool.or_eq_true] at h
    rcases h with h | h
    · exact (hasCondFunc_mem_walk e h).mono (fun d hd => by simp [walkExprList, hd])
    · exact (hasCondFuncList_mem_walk rest h).mono (fun d hd => by simp [walkExprList, hd])

theorem hasCondFuncPairs_mem_walk : ∀ ps : List (HExpr × HExpr),
    hasCondFuncPairs ps = true → BothSummaries (walkExprPairs ps)
  | (k, v) :: rest, h => by
    simp only [hasCondFuncPairs, Bool.or_eq_true] at h
    rcases h with (h | h) | h
    · exact (hasCondFunc_mem_walk k h).mono (fun d hd => by simp [walkExprPairs, hd])
    · exact (hasCondFunc_mem_walk v h).mono (fun d hd => by simp [walkExprPairs, hd])
    · exact (hasCondFuncPairs_mem_walk rest h).mono (fun d hd => by simp [walkExprPairs, hd])

end

/-- C5: the walker descends into forbidden nodes too, so nested
violations are reported in one pass: for every template expression that
contains (along the walker's descent paths) a function call nested inside
a conditional, ValidateTemplateExpression emits both a "Conditionals not
supported in YAML" diagnostic and a "Functions not supported in YAML"
diagnostic. -/
theorem c5_nested_violations_reported (e : HExpr) (h : hasCondFunc e = true) :
    (∃ d ∈ ValidateTemplateExpression e,
      d.summary = "Conditionals not supported in YAML") ∧
    (∃ d ∈ ValidateTemplateExpression e,
      d.summary = "Functions not supported in YAML") :=
  hasCondFunc_mem_walk e h

/-- C5 witness: the theorem applied to the template
`${cond ? lower(var.x) : "a"}` — a function call inside a conditional —
with concrete ranges. -/
theorem c5_nested_violations_reported_witness :
    hasCondFunc (.template [.templateWrap (.conditional .scopeTraversal
      (.functionCall "lower" [.scopeTraversal]
        { filename := "test.yaml", rStart := { line := 1, column := 10, byte := 9 },
          rEnd := { line := 1, column := 23, byte := 22 } })
      .literalValue
      { filename := "test.yaml", rStart := { line := 1, column := 3, byte := 2 },
        rEnd := { line := 1, column := 29, byte := 28 } })]) = true ∧
    ((∃ d ∈ ValidateTemplateExpression (.template [.templateWrap (.conditional
        .scopeTraversal
        (.functionCall "lower" [.scopeTraversal]
          { filename := "test.yaml", rStart := { line := 1, column := 10, byte := 9 },
            rEnd := { line := 1, column := 23, byte := 22 } })
        .literalValue
        { filename := "test.yaml", rStart := { line := 1, column := 3, byte := 2 },
          rEnd := { line := 1, column := 29, byte := 28 } })]),
      d.summary = "Conditionals not supported in YAML") ∧
     (∃ d ∈ ValidateTemplateExpression (.template [.templateWrap (.conditional
        .scopeTraversal
        (.functionCall "lower" [.scopeTraversal]
          { filename := "test.yaml", rStart := { line := 1, column := 10, byte := 9 },
            rEnd := { line := 1, column := 23, byte := 22 } })
        .literalValue
        { filename := "test.yaml", rStart := { line := 1, column := 3, byte := 2 },
          rEnd := { line := 1, column := 29, byte := 28 } })]),
      d.summary = "Functions not supported in YAML")) :=
  ⟨by decide, c5_nested_violations_reported _ (by decide)⟩

theorem unpack_all_yaml (b : Body) : ∀ (v : Option YamlNode) (tn : String) (tr : HclRange)
    (ll lu : List String) (lr : List HclRange),
    ((unpackBlock b v tn tr ll lu lr).1.all (fun blk => IsYAMLBody blk.body)) = true := by
  have H := unpackBlock.induct b
    (fun v tn tr ll lu lr =>
      ((unpackBlock b v tn tr ll lu lr).1.all (fun blk => IsYAMLBody blk.body)) = true)
    (fun ps tn tr ll lu lr =>
      ((unpackPairs b ps tn tr ll lu lr).1.all (fun blk => IsYAMLBody blk.body)) = true)
  apply H <;> intros <;>
    simp_all [unpackBlock, unpackPairs, IsYAMLBody, List.all_map, List.all_append]

theorem pcLoop_all_yaml (b : Body) (schema : BodySchema) :
    ∀ (l : List (YamlNode × YamlNode)) (st : PCState),
    st.attributes.all (fun p => IsYAMLExpression p.2.expr) = true →
    st.blocks.all (fun blk => IsYAMLBody blk.body) = true →
    ((pcLoop b schema l st).attributes.all (fun p => IsYAMLExpression p.2.expr) = true ∧
     (pcLoop b schema l st).blocks.all (fun blk => IsYAMLBody blk.body) = true)
  | [], st, ha, hb => by simp only [pcLoop]; exact ⟨ha, hb⟩
  | (keyNode, valNode) :: rest, st, ha, hb => by
    simp only [pcLoop]
    split
    · exact pcLoop_all_yaml b schema rest st ha hb
    · split
      · split
        · exact pcLoop_all_yaml b schema rest _ ha hb
        · refine pcLoop_all_yaml b schema rest _ ?_ hb
          rw [List.all_append, ha]
          simp [IsYAMLExpression]
      · split
        · refine pcLoop_all_yaml b schema rest _ ha ?_
          rw [List.all_append, hb]
          simp [unpack_all_yaml b]
        · exact pcLoop_all_yaml b schema rest st ha hb

/-- C10: every attribute expression and every block body that Content or
PartialContent of a YAML body produces is recognized by the restriction
gatekeeper's YAML-origin tests — attributes wrap the package's expression
type and block bodies wrap the package's body type, at any nesting depth,
since nested blocks' bodies are again of the same shape. -/
theorem c10_yaml_origin (b : Body) (schema : BodySchema) :
    ((PartialContent b schema).1.attributes.all
      (fun p => IsYAMLExpression p.2.expr)) = true ∧
    ((PartialContent b schema).1.blocks.all
      (fun blk => IsYAMLBody blk.body)) = true ∧
    ((Content b schema).1.attributes.all
      (fun p => IsYAMLExpression p.2.expr)) = true ∧
    ((Content b schema).1.blocks.all
      (fun blk => IsYAMLBody blk.body)) = true := by
  have h := pcLoop_all_yaml b schema (collectAttrs b)
    { attributes := [], blocks := [], diags := [], usedNames := b.hiddenAttrs }
    rfl rfl
  refine ⟨?_, ?_, ?_, ?_⟩ <;> simp [PartialContent, Content, h.1, h.2]

theorem insertName_contains (s : List String) (a m : String) :
    (insertName s a).contains m = true ↔ s.contains m = true ∨ m = a := by
  by_cases h : s.contains a
  · rw [insertName, if_pos h]
    constructor
    · exact Or.inl
    · rintro (hm | rfl)
      · exact hm
      · exact h
  · rw [insertName, if_neg h]
    simp [List.elem_iff, List.mem_append]

theorem assocFind_isSome_cons {α : Type} (k' : String) (v' : α) (rest : List (String × α))
    (m : String) :
    (assocFind ((k', v') :: rest) m).isSome = true ↔
      k' = m ∨ (assocFind rest m).isSome = true := by
  cases hk : (k' == m) with
  | true =>
    have h1 : k' = m := beq_iff_eq.mp hk
    simp [assocFind, List.find?, hk, h1]
  | false =>
    have hne : ¬ k' = m := by intro he; rw [he] at hk; simp at hk
    cases h2 : rest.find? (fun p => p.1 == m) <;>
      simp [assocFind, List.find?, hk, hne, h2]

theorem assocFind_append_one {α : Type} (k : String) (v : α) (m : String) :
    ∀ l : List (String × α), (assocFind (l ++ [(k, v)]) m).isSome = true ↔
      (assocFind l m).isSome = true ∨ m = k
  | [] => by
    rw [List.nil_append, assocFind_isSome_cons]
    simp [assocFind, List.find?, eq_comm]
  | (k', v') :: rest => by
    rw [List.cons_append, assocFind_isSome_cons, assocFind_isSome_cons,
      assocFind_append_one k v m rest]
    tauto

theorem lookupSchemaFold_name : ∀ (l : List AttributeSchema) (acc : Option AttributeSchema)
    (name : String) (a : AttributeSchema),
    (∀ x, acc = some x → x.name = name) →
    l.foldl (fun acc s => if s.name == name then some s else acc) acc = some a →
    a.name = name
  | [], _, _, a, hacc, h => hacc a h
  | s :: rest, acc, name, a, hacc, h => by
    refine lookupSchemaFold_name rest _ name a ?_ h
    intro x hx
    simp only at hx
    split at hx
    · cases hx
      exact beq_iff_eq.mp ‹_›
    · exact hacc x hx

theorem lookupAttrSchema_name {l : List AttributeSchema} {name : String}
    {a : AttributeSchema} (h : lookupAttrSchema l name = some a) : a.name = name :=
  lookupSchemaFold_name l none name a (fun x hx => by cases hx) h

theorem pcLoop_usedNames (b : Body) (schema : BodySchema) :
    ∀ (l : List (YamlNode × YamlNode)) (st : PCState),
    (∀ m, (assocFind st.attributes m).isSome = true → st.usedNames.contains m = true) →
    ∀ n, ((pcLoop b schema l st).usedNames.contains n = true ↔
      st.usedNames.contains n = true ∨
      n ∈ (List.filter (fun kv => !(b.hiddenAttrs.contains kv.1.value)
            && isSchemaName schema kv.1.value) l).map (fun kv => kv.1.value))
  | [], st, hinv, n => by simp [pcLoop]
  | (keyNode, valNode) :: rest, st, hinv, n => by
    simp only [pcLoop]
    split
    · rename_i hhid
      have hfilter : (!(b.hiddenAttrs.contains keyNode.value)
          && isSchemaName schema keyNode.value) = false := by rw [hhid]; rfl
      rw [pcLoop_usedNames b schema rest st hinv n, List.filter_cons, hfilter]
      simp
    · rename_i hhid
      have hhid' : b.hiddenAttrs.contains keyNode.value = false := by
        simpa using hhid
      split
      · rename_i attrS hA
        have hname : attrS.name = keyNode.value := lookupAttrSchema_name hA
        have hschema : isSchemaName schema keyNode.value = true := by
          simp [isSchemaName, hA]
        have hfilter : (!(b.hiddenAttrs.contains keyNode.value)
            && isSchemaName schema keyNode.value) = true := by
          rw [hhid', hschema]; rfl
        split
        · rename_i existing hD
          have hkey : st.usedNames.contains keyNode.value = true :=
            hinv _ (by rw [hD]; rfl)
          refine Iff.trans (pcLoop_usedNames b schema rest _ ?_ n) ?_
          · intro m hm
            dsimp only at hm ⊢
            exact hinv m hm
          rw [List.filter_cons, hfilter, if_pos rfl, List.map_cons, List.mem_cons]
          dsimp only
          constructor
          · rintro (h | h)
            · exact Or.inl h
            · exact Or.inr (Or.inr h)
          · rintro (h | rfl | h)
            · exact Or.inl h
            · exact Or.inl hkey
            · exact Or.inr h
        · rename_i hD
          refine Iff.trans (pcLoop_usedNames b schema rest _ ?_ n) ?_
          · intro m hm
            dsimp only at hm ⊢
            rw [assocFind_append_one] at hm
            rw [insertName_contains]
            rcases hm with hm | rfl
            · exact Or.inl (hinv m hm)
            · rw [hname]
              exact Or.inr rfl
          rw [List.filter_cons, hfilter, if_pos rfl, List.map_cons, List.mem_cons]
          dsimp only
          rw [insertName_contains]
          tauto
      · rename_i hA
        split
        · rename_i blockS hB
          have hschema : isSchemaName schema keyNode.value = true := by
            simp [isSchemaName, hB]
          have hfilter : (!(b.hiddenAttrs.contains keyNode.value)
              && isSchemaName schema keyNode.value) = true := by
            rw [hhid', hschema]; rfl
          refine Iff.trans (pcLoop_usedNames b schema rest _ ?_ n) ?_
          · intro m hm
            dsimp only at hm ⊢
            rw [insertName_contains]
            exact Or.inl (hinv m hm)
          rw [List.filter_cons, hfilter, if_pos rfl, List.map_cons, List.mem_cons]
          dsimp only
          rw [insertName_contains]
          tauto
        · rename_i hB
          have hschema : isSchemaName schema keyNode.value = false := by
            simp [isSchemaName, hA, hB]
          have hfilter : (!(b.hiddenAttrs.contains keyNode.value)
              && isSchemaName schema keyNode.value) = false := by
            rw [hschema]; simp
          rw [pcLoop_usedNames b schema rest st hinv n, List.filter_cons, hfilter]
          simp

/-- C4: PartialContent leaves the body it is called on untouched — the
embedding is pure, and the remainder body is a fresh record sharing the
node, filename and source — and the remainder's hidden-name set is
exactly the union of the body's hidden names and the names this call
consumed (mapping keys matching the schema that were not already
hidden).  Monotonic growth of the consumed set across successive calls on
derived remainder bodies is immediate from the union shape: the remainder
always retains every previously hidden name. -/
theorem c4_partial_content_hidden_names (b : Body) (schema : BodySchema) (n : String) :
    ((PartialContent b schema).2.1.node = b.node ∧
     (PartialContent b schema).2.1.filename = b.filename ∧
     (PartialContent b schema).2.1.src = b.src) ∧
    (n ∈ (PartialContent b schema).2.1.hiddenAttrs ↔
      n ∈ b.hiddenAttrs ∨ n ∈ consumedNames b schema) := by
  refine ⟨⟨rfl, rfl, rfl⟩, ?_⟩
  have h := pcLoop_usedNames b schema (collectAttrs b)
    { attributes := [], blocks := [], diags := [], usedNames := b.hiddenAttrs }
    (fun m hm => by simp [assocFind, List.find?] at hm) n
  refine Iff.trans ?_ (Iff.trans h ?_)
  · exact (List.elem_iff).symm
  · constructor
    · rintro (hc | hm)
      · exact Or.inl (List.elem_iff.mp hc)
      · exact Or.inr hm
    · rintro (hc | hm)
      · exact Or.inl (List.elem_iff.mpr hc)
      · exact Or.inr hm

theorem calculateEndPos_scalar (node : YamlNode) (src : List UInt8) (startByte : Nat)
    (hk : node.kind = .scalar) :
    (calculateEndPos node src startByte).2.2 =
      if startByte + (node.value.utf8ByteSize
          + (if node.style == doubleQuotedStyle || node.style == singleQuotedStyle
             then 2 else 0)) > src.length
      then src.length
      else startByte + (node.value.utf8ByteSize
          + (if node.style == doubleQuotedStyle || node.style == singleQuotedStyle
             then 2 else 0)) := by
  rw [calculateEndPos]
  split
  · rfl
  all_goals simp_all

/-- C7: for a scalar node in single- or double-quoted style the computed
node range satisfies end.byte − start.byte = len(value) + 2, and in plain
style (style 0) it satisfies end.byte − start.byte = len(value) — provided
the end offset start + len(value) (+2 when quoted) does not exceed the
source length; calculateEndPos clamps the end byte to the source length,
so the equality fails on the clamped inputs (see the counterexample).
Lengths are byte lengths, as Go's len of a string. -/
theorem c7_scalar_range_width (node : YamlNode) (filename : String) (src : List UInt8)
    (hk : node.kind = .scalar)
    (hb : byteOffsetForLineCol src node.line node.column
        + (node.value.utf8ByteSize
          + (if node.style == doubleQuotedStyle || node.style == singleQuotedStyle
             then 2 else 0)) ≤ src.length) :
    ((node.style = doubleQuotedStyle ∨ node.style = singleQuotedStyle) →
      (nodeRange (some node) filename src).rEnd.byte
        - (nodeRange (some node) filename src).rStart.byte
        = node.value.utf8ByteSize + 2) ∧
    (node.style = 0 →
      (nodeRange (some node) filename src).rEnd.byte
        - (nodeRange (some node) filename src).rStart.byte
        = node.value.utf8ByteSize) := by
  have hc := calculateEndPos_scalar node src
    (byteOffsetForLineCol src node.line node.column) hk
  constructor
  · intro hsty
    have hq : (node.style == doubleQuotedStyle || node.style == singleQuotedStyle) = true := by
      rcases hsty with h | h <;> simp [h]
    have hw : (if (node.style == doubleQuotedStyle || node.style == singleQuotedStyle) = true
        then 2 else 0) = 2 := by rw [hq]; decide
    rw [hw] at hc hb
    simp only [nodeRange, hc]
    rw [if_neg (by omega)]
    omega
  · intro hsty
    have hq : (node.style == doubleQuotedStyle || node.style == singleQuotedStyle) = false := by
      rw [hsty]
      rfl
    have hw : (if (node.style == doubleQuotedStyle || node.style == singleQuotedStyle) = true
        then 2 else 0) = 0 := by rw [hq]; decide
    rw [hw] at hc hb
    simp only [nodeRange, hc]
    rw [if_neg (by omega)]
    omega

/-- C7 witness: the theorem applied to a double-quoted scalar `"ab"` at
the start of a 4-byte buffer (width 4 = 2 + 2) and to a plain scalar `ab`
at the start of a 2-byte buffer (width 2). -/
theorem c7_scalar_range_width_witness :
    (nodeRange (some (.mk .scalar doubleQuotedStyle "" "ab" [] none 1 1))
        "test.yaml" [34, 97, 98, 34]).rEnd.byte
      - (nodeRange (some (.mk .scalar doubleQuotedStyle "" "ab" [] none 1 1))
        "test.yaml" [34, 97, 98, 34]).rStart.byte = 4 ∧
    (nodeRange (some (.mk .scalar 0 "" "ab" [] none 1 1))
        "test.yaml" [97, 98]).rEnd.byte
      - (nodeRange (some (.mk .scalar 0 "" "ab" [] none 1 1))
        "test.yaml" [97, 98]).rStart.byte = 2 := by
  constructor
  · exact (c7_scalar_range_width (.mk .scalar doubleQuotedStyle "" "ab" [] none 1 1)
      "test.yaml" [34, 97, 98, 34] rfl (by decide)).1 (Or.inl rfl)
  · exact (c7_scalar_range_width (.mk .scalar 0 "" "ab" [] none 1 1)
      "test.yaml" [97, 98] rfl (by decide)).2 rfl

/-- C7 counterexample: the same double-quoted scalar `"ab"` positioned at
the start of a 1-byte buffer: the end byte is clamped to the buffer
length, so the width is 1, not len("ab") + 2 = 4 — the claim as stated,
with no bound on the buffer, is false. -/
theorem c7_counterexample :
    (nodeRange (some (.mk .scalar doubleQuotedStyle "" "ab" [] none 1 1))
        "test.yaml" [97]).rEnd.byte
      - (nodeRange (some (.mk .scalar doubleQuotedStyle "" "ab" [] none 1 1))
        "test.yaml" [97]).rStart.byte = 1 ∧
    ¬((nodeRange (some (.mk .scalar doubleQuotedStyle "" "ab" [] none 1 1))
        "test.yaml" [97]).rEnd.byte
      - (nodeRange (some (.mk .scalar doubleQuotedStyle "" "ab" [] none 1 1))
        "test.yaml" [97]).rStart.byte
      = ("ab" : String).utf8ByteSize + 2) := by
  have h : (nodeRange (some (.mk .scalar doubleQuotedStyle "" "ab" [] none 1 1))
      "test.yaml" [97]).rEnd.byte
      - (nodeRange (some (.mk .scalar doubleQuotedStyle "" "ab" [] none 1 1))
        "test.yaml" [97]).rStart.byte = 1 := by
    simp only [nodeRange, YamlNode.line, YamlNode.column]
    rw [calculateEndPos_scalar (.mk .scalar doubleQuotedStyle "" "ab" [] none 1 1) [97]
      (byteOffsetForLineCol [97] 1 1) rfl]
    decide
  refine ⟨h, ?_⟩
  rw [h]
  decide

/-- C2: at the leaf of unpackBlock (no labels remaining): a null scalar
yields no block instance at all — not a block with empty content — and no
diagnostic; a mapping yields exactly one block whose body wraps that
mapping; a sequence yields exactly one block per element in element
order; any other scalar yields an "Incorrect YAML value type" diagnostic
and no block. -/
theorem c2_unpack_block_leaf (b : Body) (v : YamlNode) (typeName : String)
    (typeRange : HclRange) (labelsUsed : List String) (labelRanges : List HclRange) :
    (v.kind = .scalar →
      ((v.tag = "!!null" ∨ v.value = "null" ∨ v.value = "~" ∨ v.value = "") →
        unpackBlock b (some v) typeName typeRange [] labelsUsed labelRanges = ([], [])) ∧
      ((v.tag ≠ "!!null" ∧ v.value ≠ "null" ∧ v.value ≠ "~" ∧ v.value ≠ "") →
        unpackBlock b (some v) typeName typeRange [] labelsUsed labelRanges =
          ([], [{ severity := .error, summary := "Incorrect YAML value type",
                  detail := "A YAML mapping is required here to define block content.",
                  subject := some (nodeStartRange (some v) b.filename b.src) }]))) ∧
    (v.kind = .mapping →
      unpackBlock b (some v) typeName typeRange [] labelsUsed labelRanges =
        ([{ btype := typeName, labels := labelsUsed,
            body := .yamlBody { node := some v, filename := b.filename, src := b.src,
                                hiddenAttrs := [] },
            defRange := nodeRange (some v) b.filename b.src,
            typeRange := typeRange, labelRanges := labelRanges }], [])) ∧
    (v.kind = .sequence →
      unpackBlock b (some v) typeName typeRange [] labelsUsed labelRanges =
        (v.content.map (fun item =>
          { btype := typeName, labels := labelsUsed,
            body := .yamlBody { node := some item, filename := b.filename, src := b.src,
                                hiddenAttrs := [] },
            defRange := nodeRange (some item) b.filename b.src,
            typeRange := typeRange, labelRanges := labelRanges }), [])) := by
  refine ⟨fun hk => ⟨?_, ?_⟩, fun hk => ?_, fun hk => ?_⟩
  · intro hnull
    rw [unpackBlock]
    rcases hnull with h | h | h | h <;> simp [hk, h]
  · intro hnon
    rw [unpackBlock]
    obtain ⟨h1, h2, h3, h4⟩ := hnon
    simp [hk, h1, h2, h3, h4]
  · rw [unpackBlock]
    simp [hk]
  · rw [unpackBlock]
    simp [hk]

/-- C2 witness: the theorem applied to a null scalar (no block, no
diagnostic), to a concrete mapping (one block) and to a two-element
sequence (two blocks, in element order). -/
theorem c2_unpack_block_leaf_witness :
    unpackBlock { node := none, filename := "test.yaml", src := [], hiddenAttrs := [] }
      (some (.mk .scalar 0 "!!null" "null" [] none 1 1)) "resource"
      { filename := "test.yaml", rStart := zeroPos, rEnd := zeroPos } [] [] [] = ([], []) ∧
    (unpackBlock { node := none, filename := "test.yaml", src := [], hiddenAttrs := [] }
      (some (.mk .mapping 0 "!!map" "" [] none 1 1)) "resource"
      { filename := "test.yaml", rStart := zeroPos, rEnd := zeroPos } [] [] []).1.length = 1 ∧
    (unpackBlock { node := none, filename := "test.yaml", src := [], hiddenAttrs := [] }
      (some (.mk .sequence 0 "!!seq" ""
        [.mk .mapping 0 "!!map" "" [] none 1 1, .mk .mapping 0 "!!map" "" [] none 2 1]
        none 1 1)) "resource"
      { filename := "test.yaml", rStart := zeroPos, rEnd := zeroPos } [] [] []).1.length = 2 := by
  refine ⟨?_, ?_, ?_⟩
  · exact ((c2_unpack_block_leaf _ (.mk .scalar 0 "!!null" "null" [] none 1 1)
      "resource" _ [] []).1 rfl).1 (Or.inl rfl)
  · rw [(c2_unpack_block_leaf _ (.mk .mapping 0 "!!map" "" [] none 1 1)
      "resource" _ [] []).2.1 rfl]
    rfl
  · rw [(c2_unpack_block_leaf _ (.mk .sequence 0 "!!seq" ""
      [.mk .mapping 0 "!!map" "" [] none 1 1, .mk .mapping 0 "!!map" "" [] none 2 1]
      none 1 1) "resource" _ [] []).2.2 rfl]
    rfl

/-- C2 counterexample: a null scalar at the leaf of unpackBlock produces
zero blocks (and zero diagnostics), refuting the claim that it "yields a
block with empty content". -/
theorem c2_counterexample :
    unpackBlock { node := none, filename := "test.yaml", src := [], hiddenAttrs := [] }
      (some (.mk .scalar 0 "!!null" "~" [] none 1 1)) "resource"
      { filename := "test.yaml", rStart := zeroPos, rEnd := zeroPos } [] [] [] = ([], []) ∧
    (unpackBlock { node := none, filename := "test.yaml", src := [], hiddenAttrs := [] }
      (some (.mk .scalar 0 "!!null" "~" [] none 1 1)) "resource"
      { filename := "test.yaml", rStart := zeroPos, rEnd := zeroPos } [] [] []).1.length ≠ 1 := by
  have h : unpackBlock { node := none, filename := "test.yaml", src := [], hiddenAttrs := [] }
      (some (.mk .scalar 0 "!!null" "~" [] none 1 1)) "resource"
      { filename := "test.yaml", rStart := zeroPos, rEnd := zeroPos } [] [] [] = ([], []) := by
    rw [unpackBlock]
    simp [YamlNode.kind, YamlNode.tag, YamlNode.value]
  refine ⟨h, ?_⟩
  rw [h]
  simp

theorem calculateEndPos_scalar_eq (node : YamlNode) (src : List UInt8) (startByte : Nat)
    (hk : node.kind = .scalar) :
    calculateEndPos node src startByte =
      ((lineColForByteOffset src (if startByte + (node.value.utf8ByteSize
          + (if node.style == doubleQuotedStyle || node.style == singleQuotedStyle
             then 2 else 0)) > src.length then src.length
          else startByte + (node.value.utf8ByteSize
          + (if node.style == doubleQuotedStyle || node.style == singleQuotedStyle
             then 2 else 0)))).1,
       (lineColForByteOffset src (if startByte + (node.value.utf8ByteSize
          + (if node.style == doubleQuotedStyle || node.style == singleQuotedStyle
             then 2 else 0)) > src.length then src.length
          else startByte + (node.value.utf8ByteSize
          + (if node.style == doubleQuotedStyle || node.style == singleQuotedStyle
             then 2 else 0)))).2,
       if startByte + (node.value.utf8ByteSize
          + (if node.style == doubleQuotedStyle || node.style == singleQuotedStyle
             then 2 else 0)) > src.length then src.length
          else startByte + (node.value.utf8ByteSize
          + (if node.style == doubleQuotedStyle || node.style == singleQuotedStyle
             then 2 else 0))) := by
  rw [calculateEndPos]
  split
  · rfl
  all_goals simp_all

theorem pc_duplicate_attr (b : Body) (schema : BodySchema)
    (k1 v1 k2 v2 : YamlNode) (attrS : AttributeSchema)
    (hattrs : collectAttrs b = [(k1, v1), (k2, v2)])
    (hk2 : k2.value = k1.value)
    (hhid : b.hiddenAttrs = [])
    (hsch : lookupAttrSchema schema.attributes k1.value = some attrS) :
    (PartialContent b schema).1.attributes =
      [(attrS.name,
        { name := attrS.name,
          expr := .yamlExpr (some v1) b.filename b.src,
          range := rangeBetween (some k1) (some v1) b.filename b.src,
          nameRange := nodeRange (some k1) b.filename b.src })] ∧
    (PartialContent b schema).2.2.head? = some
      { severity := .error, summary := "Duplicate argument",
        detail := "The argument \"" ++ k1.value ++ "\" was already set at "
          ++ rangeString (rangeBetween (some k1) (some v1) b.filename b.src) ++ ".",
        subject := some (nodeRange (some k2) b.filename b.src) } := by
  have hname : attrS.name = k1.value := lookupAttrSchema_name hsch
  have hc1 : b.hiddenAttrs.contains k1.value = false := by rw [hhid]; rfl
  have hc2 : b.hiddenAttrs.contains k2.value = false := by rw [hhid]; rfl
  have hfind2 : assocFind
      ([(attrS.name,
        { name := attrS.name,
          expr := AnyExpr.yamlExpr (some v1) b.filename b.src,
          range := rangeBetween (some k1) (some v1) b.filename b.src,
          nameRange := nodeRange (some k1) b.filename b.src })] :
        List (String × HclAttribute)) k1.value =
      some
        { name := attrS.name,
          expr := AnyExpr.yamlExpr (some v1) b.filename b.src,
          range := rangeBetween (some k1) (some v1) b.filename b.src,
          nameRange := nodeRange (some k1) b.filename b.src } := by
    simp [assocFind, List.find?, hname]
  simp only [PartialContent, hattrs, pcLoop, hc1, hc2, hk2, hsch, Bool.false_eq_true,
    if_false, List.nil_append, hfind2]
  constructor
  · rfl
  · simp [assocFind, List.find?]
/-- assocFind on a cons: the head is consulted first. -/
theorem assocFind_cons {α : Type} (k : String) (v : α) (rest : List (String × α))
    (m : String) :
    assocFind ((k, v) :: rest) m =
      if (k == m) = true then some v else assocFind rest m := by
  by_cases hk : (k == m) = true
  · simp [assocFind, List.find?, hk]
  · have hk2 : (k == m) = false := by simpa using hk
    simp [assocFind, List.find?, hk2]

/-- A lookup that already succeeds is unaffected by entries appended on
the right (Go map writes for other keys never shadow an existing one in
this first-match model). -/
theorem assocFind_append_some {α : Type} (m : String) (a : α) :
    ∀ (l1 l2 : List (String × α)), assocFind l1 m = some a →
    assocFind (l1 ++ l2) m = some a
  | [], _, h => Option.noConfusion h
  | (k, v) :: rest, l2, h => by
    rw [List.cons_append, assocFind_cons]
    rw [assocFind_cons] at h
    by_cases hk : (k == m) = true
    · rw [if_pos hk] at h ⊢
      exact h
    · rw [if_neg hk] at h ⊢
      exact assocFind_append_some m a rest l2 h

/-- A failed lookup on the left part of an append defers to the right
part. -/
theorem assocFind_append_none {α : Type} (m : String) :
    ∀ (l1 l2 : List (String × α)), assocFind l1 m = none →
    assocFind (l1 ++ l2) m = assocFind l2 m
  | [], l2, _ => by rw [List.nil_append]
  | (k, v) :: rest, l2, h => by
    rw [List.cons_append, assocFind_cons]
    rw [assocFind_cons] at h
    by_cases hk : (k == m) = true
    · rw [if_pos hk] at h
      exact Option.noConfusion h
    · rw [if_neg hk] at h ⊢
      exact assocFind_append_none m rest l2 h

/-- The entry loop only ever appends attributes, so an attribute already
recorded keeps being the lookup result. -/
theorem pcLoop_find_mono (b : Body) (schema : BodySchema) (m : String)
    (a : HclAttribute) :
    ∀ (l : List (YamlNode × YamlNode)) (st : PCState),
    assocFind st.attributes m = some a →
    assocFind (pcLoop b schema l st).attributes m = some a
  | [], st, h => by
    simp only [pcLoop]
    exact h
  | (keyNode, valNode) :: rest, st, h => by
    simp only [pcLoop]
    split
    · exact pcLoop_find_mono b schema m a rest st h
    · split
      · split
        · exact pcLoop_find_mono b schema m a rest _ h
        · refine pcLoop_find_mono b schema m a rest _ ?_
          exact assocFind_append_some m a _ _ h
      · split
        · exact pcLoop_find_mono b schema m a rest _ h
        · exact pcLoop_find_mono b schema m a rest st h

/-- The entry loop only ever appends diagnostics, so a diagnostic already
emitted stays in the list. -/
theorem pcLoop_diags_mono (b : Body) (schema : BodySchema) (d : Diagnostic) :
    ∀ (l : List (YamlNode × YamlNode)) (st : PCState),
    d ∈ st.diags → d ∈ (pcLoop b schema l st).diags
  | [], st, h => by
    simp only [pcLoop]
    exact h
  | (keyNode, valNode) :: rest, st, h => by
    simp only [pcLoop]
    split
    · exact pcLoop_diags_mono b schema d rest st h
    · split
      · split
        · exact pcLoop_diags_mono b schema d rest _ (List.mem_append_left _ h)
        · exact pcLoop_diags_mono b schema d rest _ h
      · split
        · exact pcLoop_diags_mono b schema d rest _ (List.mem_append_left _ h)
        · exact pcLoop_diags_mono b schema d rest st h

/-- One loop step on an unhidden schema-attribute key not yet recorded:
the attribute built from the entry is appended and the key marked used. -/
theorem pcLoop_cons_attr_new (b : Body) (schema : BodySchema)
    (k v : YamlNode) (rest : List (YamlNode × YamlNode)) (st : PCState)
    (attrS : AttributeSchema)
    (hhid : b.hiddenAttrs.contains k.value = false)
    (hsch : lookupAttrSchema schema.attributes k.value = some attrS)
    (hfind : assocFind st.attributes k.value = none) :
    pcLoop b schema ((k, v) :: rest) st = pcLoop b schema rest
      { st with
        attributes := st.attributes ++ [(attrS.name,
          { name := attrS.name,
            expr := .yamlExpr (some v) b.filename b.src,
            range := rangeBetween (some k) (some v) b.filename b.src,
            nameRange := nodeRange (some k) b.filename b.src })],
        usedNames := insertName st.usedNames k.value } := by
  simp only [pcLoop, hhid, hsch, hfind, Bool.false_eq_true, if_false]

/-- One loop step on an unhidden schema-attribute key already recorded:
only the "Duplicate argument" diagnostic is appended, against the current
key's range, quoting the recorded attribute's range in the detail. -/
theorem pcLoop_cons_attr_dup (b : Body) (schema : BodySchema)
    (k v : YamlNode) (rest : List (YamlNode × YamlNode)) (st : PCState)
    (attrS : AttributeSchema) (existing : HclAttribute)
    (hhid : b.hiddenAttrs.contains k.value = false)
    (hsch : lookupAttrSchema schema.attributes k.value = some attrS)
    (hfind : assocFind st.attributes k.value = some existing) :
    pcLoop b schema ((k, v) :: rest) st = pcLoop b schema rest
      { st with diags := st.diags ++
        [{ severity := .error, summary := "Duplicate argument",
           detail := "The argument \"" ++ k.value ++ "\" was already set at "
             ++ rangeString existing.range ++ ".",
           subject := some (nodeRange (some k) b.filename b.src) }] } := by
  simp only [pcLoop, hhid, hsch, hfind, Bool.false_eq_true, if_false]

/-- From any state that already records attribute `a` under the key, the
rest of the loop — arbitrary entries, then the duplicate occurrence —
keeps `a` as the lookup result and emits the duplicate diagnostic with
the duplicate key's range as subject and `a`'s range in the detail. -/
theorem pc_dup_find (b : Body) (schema : BodySchema) (k2 v2 : YamlNode)
    (attrS : AttributeSchema) (a : HclAttribute)
    (hhid : b.hiddenAttrs.contains k2.value = false)
    (hsch : lookupAttrSchema schema.attributes k2.value = some attrS) :
    ∀ (mid post : List (YamlNode × YamlNode)) (st : PCState),
    assocFind st.attributes k2.value = some a →
    assocFind (pcLoop b schema (mid ++ (k2, v2) :: post) st).attributes k2.value
      = some a ∧
    ({ severity := .error, summary := "Duplicate argument",
       detail := "The argument \"" ++ k2.value ++ "\" was already set at "
         ++ rangeString a.range ++ ".",
       subject := some (nodeRange (some k2) b.filename b.src) } : Diagnostic)
      ∈ (pcLoop b schema (mid ++ (k2, v2) :: post) st).diags
  | [], post, st, hfind => by
    rw [List.nil_append,
      pcLoop_cons_attr_dup b schema k2 v2 post st attrS a hhid hsch hfind]
    constructor
    · exact pcLoop_find_mono b schema k2.value a post _ hfind
    · refine pcLoop_diags_mono b schema _ post _ ?_
      dsimp only
      simp
  | (q, w) :: mid, post, st, hfind => by
    rw [List.cons_append]
    simp only [pcLoop]
    split
    · exact pc_dup_find b schema k2 v2 attrS a hhid hsch mid post st hfind
    · split
      · split
        · exact pc_dup_find b schema k2 v2 attrS a hhid hsch mid post _ hfind
        · refine pc_dup_find b schema k2 v2 attrS a hhid hsch mid post _ ?_
          exact assocFind_append_some k2.value a _ _ hfind
      · split
        · exact pc_dup_find b schema k2 v2 attrS a hhid hsch mid post _ hfind
        · exact pc_dup_find b schema k2 v2 attrS a hhid hsch mid post st hfind

/-- From any state not yet recording the key, running the loop over a
prefix free of that key, the first occurrence, arbitrary middle entries,
the second occurrence, and an arbitrary tail records the first
occurrence's attribute and emits the duplicate diagnostic against the
second occurrence's key range. -/
theorem pc_dup_first (b : Body) (schema : BodySchema) (k1 v1 k2 v2 : YamlNode)
    (attrS : AttributeSchema)
    (hk2 : k2.value = k1.value)
    (hhid : b.hiddenAttrs.contains k1.value = false)
    (hsch : lookupAttrSchema schema.attributes k1.value = some attrS) :
    ∀ (pre mid post : List (YamlNode × YamlNode)) (st : PCState),
    (∀ p ∈ pre, p.1.value ≠ k1.value) →
    assocFind st.attributes k1.value = none →
    assocFind
      (pcLoop b schema (pre ++ ((k1, v1) :: (mid ++ ((k2, v2) :: post)))) st).attributes
      k1.value =
      some { name := attrS.name,
             expr := .yamlExpr (some v1) b.filename b.src,
             range := rangeBetween (some k1) (some v1) b.filename b.src,
             nameRange := nodeRange (some k1) b.filename b.src } ∧
    ({ severity := .error, summary := "Duplicate argument",
       detail := "The argument \"" ++ k1.value ++ "\" was already set at "
         ++ rangeString (rangeBetween (some k1) (some v1) b.filename b.src) ++ ".",
       subject := some (nodeRange (some k2) b.filename b.src) } : Diagnostic)
      ∈ (pcLoop b schema (pre ++ ((k1, v1) :: (mid ++ ((k2, v2) :: post)))) st).diags
  | [], mid, post, st, _, hfind => by
    have hhid2 : b.hiddenAttrs.contains k2.value = false := by rw [hk2]; exact hhid
    have hsch2 : lookupAttrSchema schema.attributes k2.value = some attrS := by
      rw [hk2]; exact hsch
    rw [List.nil_append,
      pcLoop_cons_attr_new b schema k1 v1 (mid ++ (k2, v2) :: post) st attrS
        hhid hsch hfind]
    have h2 : assocFind ({ st with
        attributes := st.attributes ++ [(attrS.name,
          { name := attrS.name,
            expr := .yamlExpr (some v1) b.filename b.src,
            range := rangeBetween (some k1) (some v1) b.filename b.src,
            nameRange := nodeRange (some k1) b.filename b.src })],
        usedNames := insertName st.usedNames k1.value } : PCState).attributes
        k2.value =
        some { name := attrS.name,
               expr := .yamlExpr (some v1) b.filename b.src,
               range := rangeBetween (some k1) (some v1) b.filename b.src,
               nameRange := nodeRange (some k1) b.filename b.src } := by
      dsimp only
      rw [hk2, assocFind_append_none _ _ _ hfind, assocFind_cons,
        if_pos (beq_iff_eq.mpr (lookupAttrSchema_name hsch))]
    have h3 := pc_dup_find b schema k2 v2 attrS
      { name := attrS.name,
        expr := .yamlExpr (some v1) b.filename b.src,
        range := rangeBetween (some k1) (some v1) b.filename b.src,
        nameRange := nodeRange (some k1) b.filename b.src }
      hhid2 hsch2 mid post _ h2
    rw [hk2] at h3
    exact h3
  | (q, w) :: pre, mid, post, st, hpre, hfind => by
    have hq : q.value ≠ k1.value := hpre (q, w) (List.mem_cons_self _ _)
    have hpre2 : ∀ p ∈ pre, p.1.value ≠ k1.value := fun p hp =>
      hpre p (List.mem_cons_of_mem _ hp)
    rw [List.cons_append]
    simp only [pcLoop]
    split
    · exact pc_dup_first b schema k1 v1 k2 v2 attrS hk2 hhid hsch pre mid post st
        hpre2 hfind
    · split
      · split
        · exact pc_dup_first b schema k1 v1 k2 v2 attrS hk2 hhid hsch pre mid post _
            hpre2 hfind
        · rename_i attrS2 hschQ2 aq hfq
          refine pc_dup_first b schema k1 v1 k2 v2 attrS hk2 hhid hsch pre mid post _
            hpre2 ?_
          dsimp only
          rw [assocFind_append_none _ _ _ hfind, assocFind_cons, if_neg ?_]
          · rfl
          · intro hbeq
            exact hq (by rw [← lookupAttrSchema_name hschQ2]; exact beq_iff_eq.mp hbeq)
      · split
        · exact pc_dup_first b schema k1 v1 k2 v2 attrS hk2 hhid hsch pre mid post _
            hpre2 hfind
        · exact pc_dup_first b schema k1 v1 k2 v2 attrS hk2 hhid hsch pre mid post st
            hpre2 hfind

/-- C9: for every body whose mapping contains the same unhidden
schema-attribute key twice — any entries before, between, or after the
two occurrences — PartialContent keeps the first occurrence as the
attribute's value and emits a "Duplicate argument" diagnostic for the
second occurrence, but the diagnostic's subject range is the second
(duplicate) key's range, while the earlier definition's range appears
only in the detail text, not as the subject the claim asserts. -/
theorem c9_duplicate_argument (b : Body) (schema : BodySchema)
    (pre mid post : List (YamlNode × YamlNode))
    (k1 v1 k2 v2 : YamlNode) (attrS : AttributeSchema)
    (hattrs : collectAttrs b = pre ++ ((k1, v1) :: (mid ++ ((k2, v2) :: post))))
    (hpre : ∀ p ∈ pre, p.1.value ≠ k1.value)
    (hk2 : k2.value = k1.value)
    (hhid : b.hiddenAttrs.contains k1.value = false)
    (hsch : lookupAttrSchema schema.attributes k1.value = some attrS) :
    assocFind (PartialContent b schema).1.attributes k1.value =
      some { name := attrS.name,
             expr := .yamlExpr (some v1) b.filename b.src,
             range := rangeBetween (some k1) (some v1) b.filename b.src,
             nameRange := nodeRange (some k1) b.filename b.src } ∧
    ({ severity := .error, summary := "Duplicate argument",
       detail := "The argument \"" ++ k1.value ++ "\" was already set at "
         ++ rangeString (rangeBetween (some k1) (some v1) b.filename b.src) ++ ".",
       subject := some (nodeRange (some k2) b.filename b.src) } : Diagnostic)
      ∈ (PartialContent b schema).2.2 := by
  have h := pc_dup_first b schema k1 v1 k2 v2 attrS hk2 hhid hsch pre mid post
    { attributes := [], blocks := [], diags := [], usedNames := b.hiddenAttrs }
    hpre rfl
  simp only [PartialContent, hattrs]
  exact ⟨h.1, List.mem_append_left _ h.2⟩

/-- C9 witness: the theorem applied to the five-line mapping `b: 0` /
`a: 1` / `c: 3` / `a: 2` / `d: 4` with schema attribute `a`, so the
duplicate pair is surrounded by unrelated entries. -/
theorem c9_duplicate_argument_witness :
    assocFind (PartialContent
      { node := some (.mk .mapping 0 "!!map" ""
          [.mk .scalar 0 "!!str" "b" [] none 1 1, .mk .scalar 0 "!!int" "0" [] none 1 4,
           .mk .scalar 0 "!!str" "a" [] none 2 1, .mk .scalar 0 "!!int" "1" [] none 2 4,
           .mk .scalar 0 "!!str" "c" [] none 3 1, .mk .scalar 0 "!!int" "3" [] none 3 4,
           .mk .scalar 0 "!!str" "a" [] none 4 1, .mk .scalar 0 "!!int" "2" [] none 4 4,
           .mk .scalar 0 "!!str" "d" [] none 5 1, .mk .scalar 0 "!!int" "4" [] none 5 4]
          none 1 1),
        filename := "test.yaml",
        src := [98, 58, 32, 48, 10, 97, 58, 32, 49, 10, 99, 58, 32, 51, 10,
                97, 58, 32, 50, 10, 100, 58, 32, 52, 10],
        hiddenAttrs := [] }
      { attributes := [{ name := "a", required := false }], blocks := [] }).1.attributes
      (YamlNode.mk .scalar 0 "!!str" "a" [] none 2 1).value =
      some { name := ({ name := "a", required := false } : AttributeSchema).name,
             expr := .yamlExpr (some (.mk .scalar 0 "!!int" "1" [] none 2 4)) "test.yaml"
               [98, 58, 32, 48, 10, 97, 58, 32, 49, 10, 99, 58, 32, 51, 10,
                97, 58, 32, 50, 10, 100, 58, 32, 52, 10],
             range := rangeBetween (some (.mk .scalar 0 "!!str" "a" [] none 2 1))
               (some (.mk .scalar 0 "!!int" "1" [] none 2 4)) "test.yaml"
               [98, 58, 32, 48, 10, 97, 58, 32, 49, 10, 99, 58, 32, 51, 10,
                97, 58, 32, 50, 10, 100, 58, 32, 52, 10],
             nameRange := nodeRange (some (.mk .scalar 0 "!!str" "a" [] none 2 1))
               "test.yaml"
               [98, 58, 32, 48, 10, 97, 58, 32, 49, 10, 99, 58, 32, 51, 10,
                97, 58, 32, 50, 10, 100, 58, 32, 52, 10] } ∧
    ({ severity := .error, summary := "Duplicate argument",
       detail := "The argument \"" ++ (YamlNode.mk .scalar 0 "!!str" "a" [] none 2 1).value
         ++ "\" was already set at "
         ++ rangeString (rangeBetween (some (.mk .scalar 0 "!!str" "a" [] none 2 1))
              (some (.mk .scalar 0 "!!int" "1" [] none 2 4)) "test.yaml"
              [98, 58, 32, 48, 10, 97, 58, 32, 49, 10, 99, 58, 32, 51, 10,
               97, 58, 32, 50, 10, 100, 58, 32, 52, 10]) ++ ".",
       subject := some (nodeRange (some (.mk .scalar 0 "!!str" "a" [] none 4 1))
         "test.yaml"
         [98, 58, 32, 48, 10, 97, 58, 32, 49, 10, 99, 58, 32, 51, 10,
          97, 58, 32, 50, 10, 100, 58, 32, 52, 10]) } : Diagnostic)
      ∈ (PartialContent
      { node := some (.mk .mapping 0 "!!map" ""
          [.mk .scalar 0 "!!str" "b" [] none 1 1, .mk .scalar 0 "!!int" "0" [] none 1 4,
           .mk .scalar 0 "!!str" "a" [] none 2 1, .mk .scalar 0 "!!int" "1" [] none 2 4,
           .mk .scalar 0 "!!str" "c" [] none 3 1, .mk .scalar 0 "!!int" "3" [] none 3 4,
           .mk .scalar 0 "!!str" "a" [] none 4 1, .mk .scalar 0 "!!int" "2" [] none 4 4,
           .mk .scalar 0 "!!str" "d" [] none 5 1, .mk .scalar 0 "!!int" "4" [] none 5 4]
          none 1 1),
        filename := "test.yaml",
        src := [98, 58, 32, 48, 10, 97, 58, 32, 49, 10, 99, 58, 32, 51, 10,
                97, 58, 32, 50, 10, 100, 58, 32, 52, 10],
        hiddenAttrs := [] }
      { attributes := [{ name := "a", required := false }], blocks := [] }).2.2 :=
  c9_duplicate_argument
    { node := some (.mk .mapping 0 "!!map" ""
        [.mk .scalar 0 "!!str" "b" [] none 1 1, .mk .scalar 0 "!!int" "0" [] none 1 4,
         .mk .scalar 0 "!!str" "a" [] none 2 1, .mk .scalar 0 "!!int" "1" [] none 2 4,
         .mk .scalar 0 "!!str" "c" [] none 3 1, .mk .scalar 0 "!!int" "3" [] none 3 4,
         .mk .scalar 0 "!!str" "a" [] none 4 1, .mk .scalar 0 "!!int" "2" [] none 4 4,
         .mk .scalar 0 "!!str" "d" [] none 5 1, .mk .scalar 0 "!!int" "4" [] none 5 4]
        none 1 1),
      filename := "test.yaml",
      src := [98, 58, 32, 48, 10, 97, 58, 32, 49, 10, 99, 58, 32, 51, 10,
              97, 58, 32, 50, 10, 100, 58, 32, 52, 10],
      hiddenAttrs := [] }
    { attributes := [{ name := "a", required := false }], blocks := [] }
    [(.mk .scalar 0 "!!str" "b" [] none 1 1, .mk .scalar 0 "!!int" "0" [] none 1 4)]
    [(.mk .scalar 0 "!!str" "c" [] none 3 1, .mk .scalar 0 "!!int" "3" [] none 3 4)]
    [(.mk .scalar 0 "!!str" "d" [] none 5 1, .mk .scalar 0 "!!int" "4" [] none 5 4)]
    (.mk .scalar 0 "!!str" "a" [] none 2 1) (.mk .scalar 0 "!!int" "1" [] none 2 4)
    (.mk .scalar 0 "!!str" "a" [] none 4 1) (.mk .scalar 0 "!!int" "2" [] none 4 4)
    { name := "a", required := false } rfl
    (by intro p hp; rw [List.mem_singleton] at hp; subst hp; decide) rfl rfl rfl

/-- C9 counterexample: on the concrete `a: 1` / `a: 2` mapping the
emitted "Duplicate argument" diagnostic's subject is the second key's
range (line 2), which differs from the earlier definition's range (line
1) that the claim says the diagnostic is reported against. -/
theorem c9_counterexample :
    (PartialContent
      { node := some (.mk .mapping 0 "!!map" ""
          [.mk .scalar 0 "!!str" "a" [] none 1 1, .mk .scalar 0 "!!int" "1" [] none 1 4,
           .mk .scalar 0 "!!str" "a" [] none 2 1, .mk .scalar 0 "!!int" "2" [] none 2 4]
          none 1 1),
        filename := "test.yaml", src := [97, 58, 32, 49, 10, 97, 58, 32, 50, 10],
        hiddenAttrs := [] }
      { attributes := [{ name := "a", required := false }], blocks := [] }).2.2.head? =
      some
        { severity := .error, summary := "Duplicate argument",
          detail := "The argument \"a\" was already set at test.yaml:1,1-5.",
          subject := some { filename := "test.yaml",
                            rStart := { line := 2, column := 1, byte := 5 },
                            rEnd := { line := 2, column := 2, byte := 6 } } } ∧
    (some { filename := "test.yaml",
            rStart := { line := 2, column := 1, byte := 5 },
            rEnd := { line := 2, column := 2, byte := 6 } } : Option HclRange) ≠
      some (rangeBetween (some (.mk .scalar 0 "!!str" "a" [] none 1 1))
        (some (.mk .scalar 0 "!!int" "1" [] none 1 4)) "test.yaml"
        [97, 58, 32, 49, 10, 97, 58, 32, 50, 10]) := by
  have hr1 : rangeBetween (some (.mk .scalar 0 "!!str" "a" [] none 1 1))
      (some (.mk .scalar 0 "!!int" "1" [] none 1 4)) "test.yaml"
      [97, 58, 32, 49, 10, 97, 58, 32, 50, 10] =
      { filename := "test.yaml", rStart := { line := 1, column := 1, byte := 0 },
        rEnd := { line := 1, column := 5, byte := 4 } } := by
    simp only [rangeBetween, nodeRange, YamlNode.line, YamlNode.column]
    rw [calculateEndPos_scalar_eq (.mk .scalar 0 "!!int" "1" [] none 1 4)
        [97, 58, 32, 49, 10, 97, 58, 32, 50, 10]
        (byteOffsetForLineCol [97, 58, 32, 49, 10, 97, 58, 32, 50, 10] 1 4) rfl]
    decide
  have hr2 : nodeRange (some (.mk .scalar 0 "!!str" "a" [] none 2 1))
      "test.yaml" [97, 58, 32, 49, 10, 97, 58, 32, 50, 10] =
      { filename := "test.yaml", rStart := { line := 2, column := 1, byte := 5 },
        rEnd := { line := 2, column := 2, byte := 6 } } := by
    simp only [nodeRange, YamlNode.line, YamlNode.column]
    rw [calculateEndPos_scalar_eq (.mk .scalar 0 "!!str" "a" [] none 2 1)
        [97, 58, 32, 49, 10, 97, 58, 32, 50, 10]
        (byteOffsetForLineCol [97, 58, 32, 49, 10, 97, 58, 32, 50, 10] 2 1) rfl]
    decide
  obtain ⟨h1, h2⟩ := pc_duplicate_attr
    { node := some (.mk .mapping 0 "!!map" ""
        [.mk .scalar 0 "!!str" "a" [] none 1 1, .mk .scalar 0 "!!int" "1" [] none 1 4,
         .mk .scalar 0 "!!str" "a" [] none 2 1, .mk .scalar 0 "!!int" "2" [] none 2 4]
        none 1 1),
      filename := "test.yaml", src := [97, 58, 32, 49, 10, 97, 58, 32, 50, 10],
      hiddenAttrs := [] }
    { attributes := [{ name := "a", required := false }], blocks := [] }
    (.mk .scalar 0 "!!str" "a" [] none 1 1) (.mk .scalar 0 "!!int" "1" [] none 1 4)
    (.mk .scalar 0 "!!str" "a" [] none 2 1) (.mk .scalar 0 "!!int" "2" [] none 2 4)
    { name := "a", required := false } rfl rfl rfl rfl
  rw [hr1, hr2] at h2
  constructor
  · rw [h2]
    decide
  · rw [hr1]
    decide

theorem lcLoop_fst : ∀ (l : List UInt8) (i line a : Int),
    (lcLoop l i line a).1 = line + (cnt10 l : Int)
  | [], i, line, a => by simp [lcLoop, cnt10]
  | b :: rest, i, line, a => by
    by_cases hb : b = 10
    · rw [lcLoop, if_pos hb, lcLoop_fst rest (i+1) (line+1) i]
      simp [cnt10, hb]
      ring
    · rw [lcLoop, if_neg hb, lcLoop_fst rest (i+1) line a]
      simp [cnt10, hb]

theorem lcLoop_snd_noNL : ∀ (l : List UInt8), cnt10 l = 0 → ∀ (i line a : Int),
    (lcLoop l i line a).2 = a
  | [], _, i, line, a => rfl
  | b :: rest, h, i, line, a => by
    by_cases hb : b = 10
    · simp [cnt10, hb] at h
    · simp only [cnt10, hb, if_neg hb, Nat.zero_add] at h
      rw [lcLoop, if_neg hb]
      exact lcLoop_snd_noNL rest (by omega) (i+1) line a

theorem lcLoop_snd_shift : ∀ (l : List UInt8), cnt10 l ≠ 0 → ∀ (i line line' a a' : Int),
    (lcLoop l (i+1) line a).2 = (lcLoop l i line' a').2 + 1
  | [], h, _, _, _, _, _ => absurd rfl h
  | b :: rest, h, i, line, line', a, a' => by
    by_cases hb : b = 10
    · rw [lcLoop, if_pos hb, lcLoop, if_pos hb]
      by_cases hr : cnt10 rest = 0
      · rw [lcLoop_snd_noNL rest hr, lcLoop_snd_noNL rest hr]
      · exact lcLoop_snd_shift rest hr (i+1) (line+1) (line'+1) (i+1) i
    · have hr : cnt10 rest ≠ 0 := by
        simp [cnt10, hb] at h
        omega
      rw [lcLoop, if_neg hb, lcLoop, if_neg hb]
      exact lcLoop_snd_shift rest hr (i+1) line line' a a'

theorem lcLoop_snd_range : ∀ (l : List UInt8) (i line a : Int),
    (lcLoop l i line a).2 = a ∨
      (i ≤ (lcLoop l i line a).2 ∧ (lcLoop l i line a).2 < i + l.length)
  | [], i, line, a => Or.inl rfl
  | b :: rest, i, line, a => by
    by_cases hb : b = 10
    · rw [lcLoop, if_pos hb]
      rcases lcLoop_snd_range rest (i+1) (line+1) i with h | h
    
      · right
        rw [h]
        simp only [List.length_cons]
        push_cast
        omega
      · right
        obtain ⟨h1, h2⟩ := h
        simp only [List.length_cons] at *
        push_cast at *
        omega
    · rw [lcLoop, if_neg hb]
      rcases lcLoop_snd_range rest (i+1) line a with h | h
      · exact Or.inl h
      · right
        obtain ⟨h1, h2⟩ := h
        simp only [List.length_cons] at *
        push_cast at *
        omega

theorem boLoop_shift : ∀ (l : List UInt8) (i cl line col : Int) (len : Nat),
    0 ≤ i → 1 ≤ col →
    boLoop l (i+1) cl line col (len+1) = boLoop l i cl line col len + 1
  | [], i, cl, line, col, len, hi, hcol => by simp [boLoop]
  | b :: rest, i, cl, line, col, len, hi, hcol => by
    by_cases hcl : cl = line
    · rw [boLoop, if_pos hcl]
      rw [boLoop, if_pos hcl]
      by_cases ht : i + (col - 1) > (len : Int)
      · rw [if_pos (by push_cast; omega), if_pos ht]
      · rw [if_neg (by push_cast; omega), if_neg ht]
        omega
    · rw [boLoop, if_neg hcl, boLoop, if_neg hcl]
      exact boLoop_shift rest (i+1) _ line col len (by omega) hcol

theorem boLoop_clShift : ∀ (l : List UInt8) (i cl line col : Int) (len : Nat),
    boLoop l i (cl+1) (line+1) col len = boLoop l i cl line col len
  | [], _, _, _, _, _ => rfl
  | b :: rest, i, cl, line, col, len => by
    by_cases hcl : cl = line
    · rw [boLoop, if_pos (by omega : cl + 1 = line + 1), boLoop, if_pos hcl]
    · rw [boLoop, if_neg (by omega : ¬(cl + 1 = line + 1)), boLoop, if_neg hcl]
      by_cases hb : b = 10
      · rw [if_pos hb, if_pos hb]
        exact boLoop_clShift rest (i+1) (cl+1) line col len
      · rw [if_neg hb, if_neg hb]
        exact boLoop_clShift rest (i+1) cl line col len
theorem byteOffset_lineCol_roundtrip : ∀ (src : List UInt8) (x : Nat), x ≤ src.length →
    byteOffsetForLineCol src (lineColForByteOffset src x).1
      (lineColForByteOffset src x).2 = x
  | [], x, h => by
    have hx : x = 0 := Nat.le_zero.mp h
    subst hx
    decide
  | b :: rest, 0, _ => by
    have h1 : lineColForByteOffset (b :: rest) 0 = (1, 1) := by
      simp [lineColForByteOffset, lcLoop]
    rw [h1]
    rw [byteOffsetForLineCol, if_neg (by omega)]
    rw [boLoop, if_pos rfl]
    rw [if_neg (by push_cast; omega)]
    rfl
  | b :: rest, o + 1, h => by
    have ho : o ≤ rest.length := by
      simp only [List.length_cons] at h
      omega
    have hpreLen : (rest.take o).length = o := by
      rw [List.length_take]
      omega
    have hL' : (lcLoop (rest.take o) 0 1 (-1)).1 = 1 + (cnt10 (rest.take o) : Int) :=
      lcLoop_fst _ 0 1 (-1)
    have hnl : (lcLoop (rest.take o) 0 1 (-1)).2 = -1 ∨
        (0 ≤ (lcLoop (rest.take o) 0 1 (-1)).2 ∧
         (lcLoop (rest.take o) 0 1 (-1)).2 < (o : Int)) := by
      rcases lcLoop_snd_range (rest.take o) 0 1 (-1) with hh | hh
      · exact Or.inl hh
      · right
        rw [hpreLen] at hh
        omega
    have hnllt : (lcLoop (rest.take o) 0 1 (-1)).2 < (o : Int) := by
      rcases hnl with hh | hh
      · rw [hh]; omega
      · omega
    have hIH := byteOffset_lineCol_roundtrip rest o ho
    have h2 : lineColForByteOffset rest o =
        ((lcLoop (rest.take o) 0 1 (-1)).1,
         (o : Int) - (lcLoop (rest.take o) 0 1 (-1)).2) := by
      simp only [lineColForByteOffset]
      rw [if_neg (by omega)]
    rw [h2, byteOffsetForLineCol, if_neg (by omega)] at hIH
    dsimp only at hIH
    have h1 : lineColForByteOffset (b :: rest) (o + 1) =
        ((lcLoop (b :: rest.take o) 0 1 (-1)).1,
         ((o + 1 : Nat) : Int) - (lcLoop (b :: rest.take o) 0 1 (-1)).2) := by
      simp only [lineColForByteOffset]
      rw [if_neg (by simp only [List.length_cons]; omega), List.take_succ_cons]
    rw [h1]
    by_cases hb : b = 10
    · have hsplit : lcLoop (b :: rest.take o) 0 1 (-1) = lcLoop (rest.take o) 1 2 0 := by
        rw [lcLoop, if_pos hb]
        rfl
      have hfst : (lcLoop (b :: rest.take o) 0 1 (-1)).1 =
          (lcLoop (rest.take o) 0 1 (-1)).1 + 1 := by
        rw [hsplit, lcLoop_fst, hL']
        ring
      have hsnd : (lcLoop (b :: rest.take o) 0 1 (-1)).2 =
          (lcLoop (rest.take o) 0 1 (-1)).2 + 1 := by
        rw [hsplit]
        by_cases hcnt : cnt10 (rest.take o) = 0
        · rw [lcLoop_snd_noNL _ hcnt, lcLoop_snd_noNL _ hcnt]
          norm_num
        · exact lcLoop_snd_shift _ hcnt 0 2 1 0 (-1)
      rw [hfst, hsnd]
      have hcol : ((o + 1 : Nat) : Int) - ((lcLoop (rest.take o) 0 1 (-1)).2 + 1) =
          (o : Int) - (lcLoop (rest.take o) 0 1 (-1)).2 := by
        push_cast
        ring
      rw [hcol]
      rw [byteOffsetForLineCol, if_neg (by omega)]
      rw [boLoop, if_neg (by omega), if_pos hb]
      simp only [List.length_cons]
      rw [boLoop_shift rest 0 (1 + 1) ((lcLoop (rest.take o) 0 1 (-1)).1 + 1)
        ((o : Int) - (lcLoop (rest.take o) 0 1 (-1)).2) rest.length (by omega) (by omega)]
      rw [boLoop_clShift rest 0 1 ((lcLoop (rest.take o) 0 1 (-1)).1)
        ((o : Int) - (lcLoop (rest.take o) 0 1 (-1)).2) rest.length]
      rw [hIH]
    · have hsplit : lcLoop (b :: rest.take o) 0 1 (-1) = lcLoop (rest.take o) 1 1 (-1) := by
        rw [lcLoop, if_neg hb]
        rfl
      have hfst : (lcLoop (b :: rest.take o) 0 1 (-1)).1 =
          (lcLoop (rest.take o) 0 1 (-1)).1 := by
        rw [hsplit, lcLoop_fst, hL']
      by_cases hcnt : cnt10 (rest.take o) = 0
      · have hsnd : (lcLoop (b :: rest.take o) 0 1 (-1)).2 = -1 := by
          rw [hsplit, lcLoop_snd_noNL _ hcnt]
        have hnl' : (lcLoop (rest.take o) 0 1 (-1)).2 = -1 :=
          lcLoop_snd_noNL _ hcnt 0 1 (-1)
        have hline1 : (lcLoop (rest.take o) 0 1 (-1)).1 = 1 := by
          rw [hL', hcnt]
          simp
        rw [hfst, hsnd, hline1]
        have hguard : ¬((1 : Int) < 1 ∨ ((o + 1 : Nat) : Int) - (-1) < 1) := by
          omega
        rw [byteOffsetForLineCol, if_neg hguard]
        rw [boLoop, if_pos rfl]
        have hclamp : ¬((0 : Int) + (((o + 1 : Nat) : Int) - (-1) - 1)
            > ((b :: rest).length : Int)) := by
          simp only [List.length_cons]
          omega
        rw [if_neg hclamp]
        omega
      · have hsnd : (lcLoop (b :: rest.take o) 0 1 (-1)).2 =
            (lcLoop (rest.take o) 0 1 (-1)).2 + 1 := by
          rw [hsplit]
          exact lcLoop_snd_shift _ hcnt 0 1 1 (-1) (-1)
        have hcnt1 : 1 ≤ cnt10 (rest.take o) := Nat.one_le_iff_ne_zero.mpr hcnt
        rw [hfst, hsnd]
        have hcol : ((o + 1 : Nat) : Int) - ((lcLoop (rest.take o) 0 1 (-1)).2 + 1) =
            (o : Int) - (lcLoop (rest.take o) 0 1 (-1)).2 := by
          push_cast
          ring
        rw [hcol]
        rw [byteOffsetForLineCol, if_neg (by omega)]
        rw [boLoop, if_neg (by omega), if_neg hb]
        simp only [List.length_cons]
        rw [boLoop_shift rest 0 1 ((lcLoop (rest.take o) 0 1 (-1)).1)
          ((o : Int) - (lcLoop (rest.take o) 0 1 (-1)).2) rest.length (by omega) (by omega)]
        rw [hIH]

/-- C8: converting a valid byte offset x (0 <= x <= len(src)) to a
(line, column) pair with lineColForByteOffset and converting that pair
back with byteOffsetForLineCol yields x again. -/
theorem c8_byte_offset_line_col_roundtrip (src : List UInt8) (x : Nat)
    (h : x ≤ src.length) :
    byteOffsetForLineCol src (lineColForByteOffset src x).1
      (lineColForByteOffset src x).2 = x :=
  byteOffset_lineCol_roundtrip src x h

/-- C8 witness: the theorem applied to the three-byte source "a\nb" at
offset 2 (line 2, column 1). -/
theorem c8_byte_offset_line_col_roundtrip_witness :
    2 ≤ ([97, 10, 98] : List UInt8).length ∧
    byteOffsetForLineCol [97, 10, 98] (lineColForByteOffset [97, 10, 98] 2).1
      (lineColForByteOffset [97, 10, 98] 2).2 = 2 :=
  ⟨by decide, c8_byte_offset_line_col_roundtrip [97, 10, 98] 2 (by decide)⟩

end Ytofu
